import Mathlib

/-!
Verification development for the Orryx chess engine core (src/main.cpp).
The definitions below are a shallow embedding of the C++ source: the board
is an array of 64 pieces modelled as a total function from square indices,
machine integers are modelled as Nat / Int (with explicit wrap-around where
the source relies on it), and the stateful C++ methods become pure
functions returning the updated state.
-/

set_option maxRecDepth 100000

namespace Orryx

/-- Color enum from the source (`enum class Color : u8 { White=0, Black=1 }`). -/
inductive Color where
  | white
  | black
deriving DecidableEq, Repr

/-- Side flip, from `other(Color c)` in the source. -/
def other : Color → Color
  | Color.white => Color.black
  | Color.black => Color.white

/-- Piece type enum (`enum class PieceType : u8 { None=0, Pawn, Knight, Bishop, Rook, Queen, King }`). -/
inductive PieceType where
  | none
  | pawn
  | knight
  | bishop
  | rook
  | queen
  | king
deriving DecidableEq, Repr

/-- Numeric value of the enum discriminant, as used for Zobrist indexing (`(int)p.t`). -/
def ptIdx : PieceType → Nat
  | PieceType.none => 0
  | PieceType.pawn => 1
  | PieceType.knight => 2
  | PieceType.bishop => 3
  | PieceType.rook => 4
  | PieceType.queen => 5
  | PieceType.king => 6

/-- Numeric value of the color (`(p.c==Color::White)?0:1`). -/
def colorIdx : Color → Nat
  | Color.white => 0
  | Color.black => 1

/-- Piece struct: a type tag and a color; the default is a None piece with
color White, exactly as `Piece{}` in the source. -/
structure Piece where
  t : PieceType := PieceType.none
  c : Color := Color.white
deriving DecidableEq, Repr

/-- Test from the source: `isNone(p)` iff the type tag is None. -/
def isNone (p : Piece) : Bool := p.t = PieceType.none

/-- Material values from `pieceValue`. -/
def pieceValue : PieceType → Int
  | PieceType.pawn => 100
  | PieceType.knight => 320
  | PieceType.bishop => 330
  | PieceType.rook => 500
  | PieceType.queen => 900
  | PieceType.king => 0
  | PieceType.none => 0

/-- Move struct from the source; `from`/`to` are square indices 0..63. -/
structure Move where
  fromSq : Nat := 0
  toSq : Nat := 0
  promo : PieceType := PieceType.none
  isCapture : Bool := false
  isEnPassant : Bool := false
  isCastle : Bool := false
deriving DecidableEq, Repr

/-- Undo record from the source. -/
structure Undo where
  m : Move := {}
  captured : Piece := {}
  epSquare : Int := -1
  castling : Nat := 0
  halfmoveClock : Int := 0
  hash : Nat := 0
deriving DecidableEq, Repr

/-- Zobrist key table, modelled as total functions on the index spaces used
by the source (`psq[2][7][64]`, `castling[16]`, `epFile[9]`). -/
structure Zobrist where
  psq : Nat → Nat → Nat → Nat
  sideToMove : Nat
  castling : Nat → Nat
  epFile : Nat → Nat

/-- Board state from the source: 64 pieces, side to move, en-passant target
square (or -1), 4-bit castling mask, halfmove clock, Zobrist hash and an
optional key table (`const Zobrist* z`, null modelled as `Option.none`). -/
structure Board where
  b : Nat → Piece
  stm : Color := Color.white
  epSquare : Int := -1
  castling : Nat := 15
  halfmoveClock : Int := 0
  hash : Nat := 0
  z : Option Zobrist := Option.none

/-- Functional update of one square of the piece array. -/
def setSq (b : Nat → Piece) (i : Nat) (p : Piece) : Nat → Piece :=
  fun j => if j = i then p else b j

/-- En-passant file index used for hashing: file of the ep square, or 8 for
"no en passant" (`epF = 8; if(epSquare>=0) epF = epSquare % 8`). -/
def epFileIdx (ep : Int) : Nat :=
  if 0 ≤ ep then (ep % 8).toNat else 8

/-- Zobrist contribution of one square in `recomputeHash`: zero for a None
piece (skipped by the loop), else `psq[c][pt][i]`. -/
def pieceKeyZ (zz : Zobrist) (p : Piece) (i : Nat) : Nat :=
  if p.t = PieceType.none then 0 else zz.psq (colorIdx p.c) (ptIdx p.t) i

/-- XOR of the piece keys of squares `0..n-1`, the loop of `recomputeHash`. -/
def xorPieces (zz : Zobrist) (b : Nat → Piece) : Nat → Nat
  | 0 => 0
  | n + 1 => xorPieces zz b n ^^^ pieceKeyZ zz (b n) n

/-- The from-scratch hash of `Board::recomputeHash`: XOR of all piece-square
keys, the side key iff Black to move, the castling key of the current mask
and the epFile key. Returns 0 when no Zobrist table is attached. -/
def recomputeHashVal (bd : Board) : Nat :=
  match bd.z with
  | Option.none => 0
  | Option.some zz =>
    let h := xorPieces zz bd.b 64
    let h := if bd.stm = Color.black then h ^^^ zz.sideToMove else h
    let h := h ^^^ zz.castling (bd.castling &&& 15)
    h ^^^ zz.epFile (epFileIdx bd.epSquare)

/-- State-passing form of `Board::recomputeHash`. -/
def Board.recomputeHash (bd : Board) : Board :=
  { bd with hash := recomputeHashVal bd }

/-- The empty piece array (`clear()` loop). -/
def emptyBoardFn : Nat → Piece := fun _ => {}

/-- Board::clear from the source. -/
def Board.clear (bd : Board) : Board :=
  { bd with b := emptyBoardFn, stm := Color.white, epSquare := -1,
            castling := 15, halfmoveClock := 0, hash := 0 }

/-- The `set(file, rank, color, type)` helper of `Board::reset`. -/
def setFR (b : Nat → Piece) (file rank : Nat) (c : Color) (t : PieceType) : Nat → Piece :=
  setSq b (rank * 8 + file) { t := t, c := c }

/-- Board::reset: clear, place the standard starting position, reset the
scalar state, then recompute the hash. -/
def Board.reset (bd : Board) : Board :=
  let bd := bd.clear
  let b := bd.b
  let b := setFR b 0 0 Color.white PieceType.rook
  let b := setFR b 1 0 Color.white PieceType.knight
  let b := setFR b 2 0 Color.white PieceType.bishop
  let b := setFR b 3 0 Color.white PieceType.queen
  let b := setFR b 4 0 Color.white PieceType.king
  let b := setFR b 5 0 Color.white PieceType.bishop
  let b := setFR b 6 0 Color.white PieceType.knight
  let b := setFR b 7 0 Color.white PieceType.rook
  let b := (List.range 8).foldl (fun acc f => setFR acc f 1 Color.white PieceType.pawn) b
  let b := setFR b 0 7 Color.black PieceType.rook
  let b := setFR b 1 7 Color.black PieceType.knight
  let b := setFR b 2 7 Color.black PieceType.bishop
  let b := setFR b 3 7 Color.black PieceType.queen
  let b := setFR b 4 7 Color.black PieceType.king
  let b := setFR b 5 7 Color.black PieceType.bishop
  let b := setFR b 6 7 Color.black PieceType.knight
  let b := setFR b 7 7 Color.black PieceType.rook
  let b := (List.range 8).foldl (fun acc f => setFR acc f 6 Color.black PieceType.pawn) b
  Board.recomputeHash
    { bd with b := b, stm := Color.white, epSquare := -1, castling := 15, halfmoveClock := 0 }

/-- The standard starting board with a given Zobrist table attached,
`Board board; board.setZobrist(&zob); board.reset();` in `main`. -/
def startBoard (z : Option Zobrist) : Board :=
  Board.reset { b := emptyBoardFn, z := z }

/-- Board::findKing: index of the first king of color `c` in square order,
or -1 when absent. -/
def Board.findKing (bd : Board) (c : Color) : Int :=
  match (List.range 64).find? (fun i =>
      decide ((bd.b i).t = PieceType.king ∧ (bd.b i).c = c)) with
  | Option.some i => (i : Int)
  | Option.none => -1

/-- One sliding ray of `isSquareAttacked`: step `(df,dr)` from `(f,r)` until
leaving the board or hitting a piece; an attack iff the first piece hit has
color `atk` and type `a` or `b2`. A board ray has at most 7 steps, so fuel 8
makes the recursion total without changing the result. -/
def rayAtk (bd : Board) (atk : Color) (a b2 : PieceType) (df dr : Int) :
    Int → Int → Nat → Bool
  | _, _, 0 => false
  | f, r, fuel + 1 =>
    let nf := f + df
    let nr := r + dr
    if 0 ≤ nf ∧ nf < 8 ∧ 0 ≤ nr ∧ nr < 8 then
      let p := bd.b (nr * 8 + nf).toNat
      if p.t = PieceType.none then rayAtk bd atk a b2 df dr nf nr fuel
      else decide (p.c = atk ∧ (p.t = a ∨ p.t = b2))
    else false

/-- Knight offset table `kD` from the source. -/
def knightD : List (Int × Int) :=
  [(1,2),(2,1),(-1,2),(-2,1),(1,-2),(2,-1),(-1,-2),(-2,-1)]

/-- King offset table: the double loop df,dr ∈ {-1,0,1} without (0,0),
in the iteration order of the source. -/
def kingD : List (Int × Int) :=
  [(-1,-1),(-1,0),(-1,1),(0,-1),(0,1),(1,-1),(1,0),(1,1)]

/-- Board::isSquareAttacked: pawn diagonals, knight jumps, king adjacency,
then the four diagonal and four orthogonal rays. -/
def Board.isSquareAttacked (bd : Board) (sq : Nat) (atk : Color) : Bool :=
  let r : Int := (sq : Int) / 8
  let f : Int := (sq : Int) % 8
  let pr : Int := r + (if atk = Color.white then -1 else 1)
  let pawnHit :=
    if 0 ≤ pr ∧ pr < 8 then
      (if 0 ≤ f - 1 then
        let p := bd.b (pr * 8 + (f - 1)).toNat
        decide (p.t = PieceType.pawn ∧ p.c = atk)
       else false) ||
      (if f + 1 < 8 then
        let p := bd.b (pr * 8 + (f + 1)).toNat
        decide (p.t = PieceType.pawn ∧ p.c = atk)
       else false)
    else false
  let knightHit := knightD.any (fun d =>
    let nf := f + d.1
    let nr := r + d.2
    if 0 ≤ nf ∧ nf < 8 ∧ 0 ≤ nr ∧ nr < 8 then
      let p := bd.b (nr * 8 + nf).toNat
      decide (p.t = PieceType.knight ∧ p.c = atk)
    else false)
  let kingHit := kingD.any (fun d =>
    let nf := f + d.1
    let nr := r + d.2
    if 0 ≤ nf ∧ nf < 8 ∧ 0 ≤ nr ∧ nr < 8 then
      let p := bd.b (nr * 8 + nf).toNat
      decide (p.t = PieceType.king ∧ p.c = atk)
    else false)
  let diag :=
    rayAtk bd atk PieceType.bishop PieceType.queen 1 1 f r 8 ||
    rayAtk bd atk PieceType.bishop PieceType.queen 1 (-1) f r 8 ||
    rayAtk bd atk PieceType.bishop PieceType.queen (-1) 1 f r 8 ||
    rayAtk bd atk PieceType.bishop PieceType.queen (-1) (-1) f r 8
  let ortho :=
    rayAtk bd atk PieceType.rook PieceType.queen 1 0 f r 8 ||
    rayAtk bd atk PieceType.rook PieceType.queen (-1) 0 f r 8 ||
    rayAtk bd atk PieceType.rook PieceType.queen 0 1 f r 8 ||
    rayAtk bd atk PieceType.rook PieceType.queen 0 (-1) f r 8
  pawnHit || knightHit || kingHit || diag || ortho

/-- Board::inCheck: the king's square is attacked by the other side; false
when no king is on the board (`findKing` returned -1). -/
def Board.inCheck (bd : Board) (c : Color) : Bool :=
  let k := bd.findKing c
  if k < 0 then false else bd.isSquareAttacked k.toNat (other c)

/-- Move constructor matching the `push` lambda of `genPseudoMoves`. -/
def mkMove (fromSq toSq : Nat) (cap ep castle : Bool) (promo : PieceType) : Move :=
  { fromSq := fromSq, toSq := toSq, promo := promo,
    isCapture := cap, isEnPassant := ep, isCastle := castle }

/-- Pawn capture and en-passant generation for one file direction `df`,
the body of `for(int df : {-1,1})` in `genPseudoMoves`. -/
def pawnSideGen (bd : Board) (i : Nat) (us : Color) (r f dir : Int)
    (promoRank : Int) (df : Int) : List Move :=
  let nf := f + df
  let tr := r + dir
  if nf < 0 ∨ 8 ≤ nf ∨ tr < 0 ∨ 8 ≤ tr then []
  else
    let toI : Int := tr * 8 + nf
    let toSq := toI.toNat
    let caps :=
      if (bd.b toSq).t ≠ PieceType.none ∧ (bd.b toSq).c ≠ us then
        if tr = promoRank then
          [mkMove i toSq true false false PieceType.queen,
           mkMove i toSq true false false PieceType.rook,
           mkMove i toSq true false false PieceType.bishop,
           mkMove i toSq true false false PieceType.knight]
        else [mkMove i toSq true false false PieceType.none]
      else []
    let eps :=
      if bd.epSquare = toI then
        let adj := (r * 8 + nf).toNat
        if (bd.b adj).t ≠ PieceType.none ∧ (bd.b adj).t = PieceType.pawn ∧
           (bd.b adj).c ≠ us then
          [mkMove i toSq true true false PieceType.none]
        else []
      else []
    caps ++ eps

/-- The forward (non-capturing) pawn moves: single push with possible
promotion, and the double push from the start rank. -/
def pawnFwdGen (bd : Board) (i : Nat) (r f dir startRank promoRank : Int) : List Move :=
  let nr := r + dir
  if 0 ≤ nr ∧ nr < 8 then
    let one := (nr * 8 + f).toNat
    if (bd.b one).t = PieceType.none then
      if nr = promoRank then
        [mkMove i one false false false PieceType.queen,
         mkMove i one false false false PieceType.rook,
         mkMove i one false false false PieceType.bishop,
         mkMove i one false false false PieceType.knight]
      else
        mkMove i one false false false PieceType.none ::
        (if r = startRank then
          let twoR := r + 2 * dir
          let two := (twoR * 8 + f).toNat
          if 0 ≤ twoR ∧ twoR < 8 ∧ (bd.b two).t = PieceType.none then
            [mkMove i two false false false PieceType.none]
          else []
        else [])
    else []
  else []

/-- Pawn move generation for the pawn on square `i`. -/
def pawnGen (bd : Board) (i : Nat) (us : Color) (r f : Int) : List Move :=
  let dir : Int := if us = Color.white then 1 else -1
  let startRank : Int := if us = Color.white then 1 else 6
  let promoRank : Int := if us = Color.white then 7 else 0
  pawnFwdGen bd i r f dir startRank promoRank ++
    pawnSideGen bd i us r f dir promoRank (-1) ++
    pawnSideGen bd i us r f dir promoRank 1

/-- One offset step of the knight/king loops of `genPseudoMoves`: bounds
check, then a quiet move to an empty square or a capture of an enemy
piece. -/
def stepGen (bd : Board) (i : Nat) (us : Color) (r f : Int) (d : Int × Int) : List Move :=
  let nf := f + d.1
  let nr := r + d.2
  if nf < 0 ∨ 8 ≤ nf ∨ nr < 0 ∨ 8 ≤ nr then []
  else
    let toSq := (nr * 8 + nf).toNat
    if (bd.b toSq).t = PieceType.none then
      [mkMove i toSq false false false PieceType.none]
    else if (bd.b toSq).c ≠ us then
      [mkMove i toSq true false false PieceType.none]
    else []

/-- Knight move generation for the knight on square `i`. -/
def knightGen (bd : Board) (i : Nat) (us : Color) (r f : Int) : List Move :=
  knightD.foldr (fun d acc => stepGen bd i us r f d ++ acc) []

/-- One sliding direction of the `slide` lambda; fuel 8 bounds the at most
7 board steps. -/
def slideGen (bd : Board) (i : Nat) (us : Color) (df dr : Int) :
    Int → Int → Nat → List Move
  | _, _, 0 => []
  | f, r, fuel + 1 =>
    let nf := f + df
    let nr := r + dr
    if 0 ≤ nf ∧ nf < 8 ∧ 0 ≤ nr ∧ nr < 8 then
      let toSq := (nr * 8 + nf).toNat
      if (bd.b toSq).t = PieceType.none then
        mkMove i toSq false false false PieceType.none ::
          slideGen bd i us df dr nf nr fuel
      else if (bd.b toSq).c ≠ us then
        [mkMove i toSq true false false PieceType.none]
      else []
    else []

/-- Slider move generation (bishop / rook / queen) for the piece on `i`. -/
def sliderGen (bd : Board) (i : Nat) (us : Color) (t : PieceType) (r f : Int) : List Move :=
  (if t = PieceType.bishop ∨ t = PieceType.queen then
    slideGen bd i us 1 1 f r 8 ++ slideGen bd i us 1 (-1) f r 8 ++
    slideGen bd i us (-1) 1 f r 8 ++ slideGen bd i us (-1) (-1) f r 8
  else []) ++
  (if t = PieceType.rook ∨ t = PieceType.queen then
    slideGen bd i us 1 0 f r 8 ++ slideGen bd i us (-1) 0 f r 8 ++
    slideGen bd i us 0 1 f r 8 ++ slideGen bd i us 0 (-1) f r 8
  else [])

/-- King move generation including the castling pushes with their gate
conditions, exactly as in the source. -/
def kingGen (bd : Board) (i : Nat) (us : Color) (r f : Int) : List Move :=
  let steps := kingD.foldr (fun d acc => stepGen bd i us r f d ++ acc) []
  let castles :=
    (if us = Color.white ∧ i = 4 then
      (if bd.castling &&& 1 ≠ 0 ∧ (bd.b 5).t = PieceType.none ∧
          (bd.b 6).t = PieceType.none ∧ (bd.b 7).t = PieceType.rook ∧
          (bd.b 7).c = Color.white then
        if bd.inCheck Color.white = false ∧
           bd.isSquareAttacked 5 Color.black = false ∧
           bd.isSquareAttacked 6 Color.black = false then
          [mkMove 4 6 false false true PieceType.none]
        else []
      else []) ++
      (if bd.castling &&& 2 ≠ 0 ∧ (bd.b 3).t = PieceType.none ∧
          (bd.b 2).t = PieceType.none ∧ (bd.b 1).t = PieceType.none ∧
          (bd.b 0).t = PieceType.rook ∧ (bd.b 0).c = Color.white then
        if bd.inCheck Color.white = false ∧
           bd.isSquareAttacked 3 Color.black = false ∧
           bd.isSquareAttacked 2 Color.black = false then
          [mkMove 4 2 false false true PieceType.none]
        else []
      else [])
    else []) ++
    (if us = Color.black ∧ i = 60 then
      (if bd.castling &&& 4 ≠ 0 ∧ (bd.b 61).t = PieceType.none ∧
          (bd.b 62).t = PieceType.none ∧ (bd.b 63).t = PieceType.rook ∧
          (bd.b 63).c = Color.black then
        if bd.inCheck Color.black = false ∧
           bd.isSquareAttacked 61 Color.white = false ∧
           bd.isSquareAttacked 62 Color.white = false then
          [mkMove 60 62 false false true PieceType.none]
        else []
      else []) ++
      (if bd.castling &&& 8 ≠ 0 ∧ (bd.b 59).t = PieceType.none ∧
          (bd.b 58).t = PieceType.none ∧ (bd.b 57).t = PieceType.none ∧
          (bd.b 56).t = PieceType.rook ∧ (bd.b 56).c = Color.black then
        if bd.inCheck Color.black = false ∧
           bd.isSquareAttacked 59 Color.white = false ∧
           bd.isSquareAttacked 58 Color.white = false then
          [mkMove 60 58 false false true PieceType.none]
        else []
      else [])
    else [])
  steps ++ castles

/-- Moves generated for the piece standing on square `i` (the body of the
`for(int i=0;i<64;i++)` loop of `genPseudoMoves`). -/
def squareGen (bd : Board) (i : Nat) : List Move :=
  let p := bd.b i
  if p.t = PieceType.none ∨ p.c ≠ bd.stm then []
  else
    let r : Int := (i : Int) / 8
    let f : Int := (i : Int) % 8
    match p.t with
    | PieceType.pawn => pawnGen bd i p.c r f
    | PieceType.knight => knightGen bd i p.c r f
    | PieceType.bishop => sliderGen bd i p.c PieceType.bishop r f
    | PieceType.rook => sliderGen bd i p.c PieceType.rook r f
    | PieceType.queen => sliderGen bd i p.c PieceType.queen r f
    | PieceType.king => kingGen bd i p.c r f
    | PieceType.none => []

/-- Board::genPseudoMoves: concatenation over the 64 squares in order. -/
def Board.genPseudoMoves (bd : Board) : List Move :=
  ((List.range 64).map (squareGen bd)).flatten

/-- The capture square of an en-passant move
(`dir = (moving.c==White) ? -8 : 8; capSq = to + dir`). -/
def epCapSq (movingC : Color) (toSq : Nat) : Nat :=
  ((toSq : Int) + (if movingC = Color.white then -8 else 8)).toNat

/-- The piece saved into `u.captured` by `makeMove`. -/
def capturedOf (bd : Board) (m : Move) : Piece :=
  if m.isEnPassant then bd.b (epCapSq (bd.b m.fromSq).c m.toSq)
  else if m.isCapture then bd.b m.toSq
  else {}

/-- Hash term removed/added for the old/new en passant, castling and side
to move (`hash ^= z->epFile[..]; hash ^= z->castling[..]; if(stm==Black)
hash ^= z->sideToMove;`). -/
def scalarHashDelta (zz : Zobrist) (ep : Int) (cast : Nat) (stm : Color) : Nat :=
  zz.epFile (epFileIdx ep) ^^^ zz.castling (cast &&& 15) ^^^
    (if stm = Color.black then zz.sideToMove else 0)

/-- The `clearIfTouches(sq, mask)` lambda of `makeMove`: clear the castling
bits in `mask` when the move touches the square (`~mask` on a u8 operand is
`255 ^^^ mask`). -/
def clearIfTouches (m : Move) (sq : Nat) (mask : Nat) (cast : Nat) : Nat :=
  if m.fromSq = sq ∨ m.toSq = sq then cast &&& (255 ^^^ mask) else cast

/-- All state mutations of `Board::makeMove` up to and including the turn
flip: halfmove clock, hash removal of the old scalar terms, the capture and
piece movement with their hash terms, promotion, the castling rook shift,
the castling-rights update and the new en-passant square. This is exactly
the state on which makeMove runs its legality test. -/
def applyMove (bd : Board) (m : Move) : Board :=
  let moving := bd.b m.fromSq
  let resetHalf :=
    moving.t = PieceType.pawn ∨ m.isCapture = true ∨ m.isEnPassant = true
  let half1 : Int := if resetHalf then 0 else bd.halfmoveClock + 1
  let hash1 :=
    match bd.z with
    | Option.none => bd.hash
    | Option.some zz =>
      bd.hash ^^^ scalarHashDelta zz bd.epSquare bd.castling bd.stm
  -- capture (en passant removes the pawn behind the target square)
  let capSq := epCapSq moving.c m.toSq
  let captured := capturedOf bd m
  let b1 :=
    if m.isEnPassant then setSq bd.b capSq {} else bd.b
  let hash2 :=
    if m.isEnPassant ∨ m.isCapture then
      match bd.z with
      | Option.none => hash1
      | Option.some zz =>
        if captured.t = PieceType.none then hash1
        else
          hash1 ^^^ zz.psq (colorIdx captured.c) (ptIdx captured.t)
            (if m.isEnPassant then capSq else m.toSq)
    else hash1
  -- remove the moving piece from the from-square, move it, add it at to
  let hash3 :=
    match bd.z with
    | Option.none => hash2
    | Option.some zz =>
      hash2 ^^^ zz.psq (colorIdx moving.c) (ptIdx moving.t) m.fromSq
  let b2 := setSq (setSq b1 m.toSq (b1 m.fromSq)) m.fromSq {}
  let hash4 :=
    match bd.z with
    | Option.none => hash3
    | Option.some zz =>
      hash3 ^^^ zz.psq (colorIdx moving.c) (ptIdx moving.t) m.toSq
  -- promotion
  let hash5 :=
    if m.promo ≠ PieceType.none then
      match bd.z with
      | Option.none => hash4
      | Option.some zz =>
        hash4 ^^^ zz.psq (colorIdx moving.c) (ptIdx PieceType.pawn) m.toSq ^^^
          zz.psq (colorIdx moving.c) (ptIdx m.promo) m.toSq
    else hash4
  let b3 :=
    if m.promo ≠ PieceType.none then
      setSq b2 m.toSq { t := m.promo, c := (b2 m.toSq).c }
    else b2
  -- castle rook shift
  let rookShift :=
    if m.isCastle then
      if moving.c = Color.white then
        if m.toSq = 6 then Option.some (7, 5)
        else if m.toSq = 2 then Option.some (0, 3)
        else Option.none
      else
        if m.toSq = 62 then Option.some (63, 61)
        else if m.toSq = 58 then Option.some (56, 59)
        else Option.none
    else Option.none
  let hash6 :=
    match rookShift with
    | Option.none => hash5
    | Option.some rr =>
      match bd.z with
      | Option.none => hash5
      | Option.some zz =>
        hash5 ^^^ zz.psq (colorIdx moving.c) (ptIdx (b3 rr.1).t) rr.1 ^^^
          zz.psq (colorIdx moving.c) (ptIdx (b3 rr.1).t) rr.2
  let b4 :=
    match rookShift with
    | Option.none => b3
    | Option.some rr => setSq (setSq b3 rr.2 (b3 rr.1)) rr.1 {}
  -- castling-rights update
  let cast1 := clearIfTouches m 4 3 bd.castling
  let cast2 := clearIfTouches m 0 2 cast1
  let cast3 := clearIfTouches m 7 1 cast2
  let cast4 := clearIfTouches m 60 12 cast3
  let cast5 := clearIfTouches m 56 8 cast4
  let cast6 := clearIfTouches m 63 4 cast5
  -- en passant square on a pawn double push
  let ep1 : Int :=
    if moving.t = PieceType.pawn ∧
        ((m.toSq : Int) / 8 - (m.fromSq : Int) / 8).natAbs = 2 then
      ((m.fromSq : Int) + (m.toSq : Int)) / 2
    else -1
  { bd with b := b4, stm := other bd.stm, epSquare := ep1, castling := cast6,
            halfmoveClock := half1, hash := hash6 }

/-- Board::undoMove: flip the side back, restore the saved scalar state,
un-shift the castling rook, move the piece back, downgrade a promotion and
restore any captured piece. -/
def Board.undoMove (bd : Board) (u : Undo) : Board :=
  let m := u.m
  let stm1 := other bd.stm
  let moved := bd.b m.toSq
  let b1 :=
    if m.isCastle then
      if moved.c = Color.white then
        if m.toSq = 6 then setSq (setSq bd.b 7 (bd.b 5)) 5 {}
        else if m.toSq = 2 then setSq (setSq bd.b 0 (bd.b 3)) 3 {}
        else bd.b
      else
        if m.toSq = 62 then setSq (setSq bd.b 63 (bd.b 61)) 61 {}
        else if m.toSq = 58 then setSq (setSq bd.b 56 (bd.b 59)) 59 {}
        else bd.b
    else bd.b
  let b2 := setSq (setSq b1 m.fromSq (b1 m.toSq)) m.toSq {}
  let b3 :=
    if m.promo ≠ PieceType.none then
      setSq b2 m.fromSq { t := PieceType.pawn, c := (b2 m.fromSq).c }
    else b2
  let b4 :=
    if m.isEnPassant then
      setSq b3 (epCapSq (b3 m.fromSq).c m.toSq) u.captured
    else if m.isCapture then setSq b3 m.toSq u.captured
    else b3
  { bd with b := b4, stm := stm1, epSquare := u.epSquare,
            castling := u.castling, halfmoveClock := u.halfmoveClock,
            hash := u.hash }

/-- The undo record `makeMove` fills in before mutating (the captured
piece is assigned during the capture step; `capturedOf` is that value). -/
def mkUndo (bd : Board) (m : Move) : Undo :=
  { m := m, captured := capturedOf bd m, epSquare := bd.epSquare,
    castling := bd.castling, halfmoveClock := bd.halfmoveClock,
    hash := bd.hash }

/-- Board::makeMove: save the undo record, bail out on an empty from-square,
apply the move, test legality (mover's king attacked), undo on failure, and
on success XOR the new scalar hash terms back in. Returns the success flag,
the resulting board and the undo record. -/
def Board.makeMove (bd : Board) (m : Move) : Bool × Board × Undo :=
  let u : Undo := mkUndo bd m
  let moving := bd.b m.fromSq
  if moving.t = PieceType.none then (false, bd, u)
  else
    let bdA := applyMove bd m
    if bdA.inCheck (other bdA.stm) then (false, bdA.undoMove u, u)
    else
      let hashF :=
        match bd.z with
        | Option.none => bdA.hash
        | Option.some zz =>
          bdA.hash ^^^ scalarHashDelta zz bdA.epSquare bdA.castling bdA.stm
      (true, { bdA with hash := hashF }, u)

/-- Board::genLegalMoves: filter the pseudo moves by a trial makeMove (the
source undoes the trial; in the pure embedding the trial simply does not
replace the board). -/
def Board.genLegalMoves (bd : Board) : List Move :=
  bd.genPseudoMoves.filter (fun m => (bd.makeMove m).1)

/-- Board::insufficientMaterial counters: pieces that are neither None nor
King, split by class. `wOther` counts White pawns/rooks/queens, `wMinor`
White knights+bishops, `wB`/`wN` White bishops/knights; same for Black. -/
def countB (bd : Board) (p : Piece → Bool) : Nat :=
  ((List.range 64).filter (fun i => p (bd.b i))).length

/-- Test used by the insufficient-material counters: a piece that the loop
does not skip (neither None nor King). -/
def countedPiece (p : Piece) : Bool :=
  !(p.t = PieceType.none || p.t = PieceType.king)

/-- Major/pawn test of the insufficient-material loop. -/
def otherPiece (p : Piece) : Bool :=
  p.t = PieceType.pawn || p.t = PieceType.rook || p.t = PieceType.queen

/-- Board::insufficientMaterial, with each accumulator of the single source
loop expressed as a count over the same 64 squares. -/
def Board.insufficientMaterial (bd : Board) : Bool :=
  let wOther := countB bd (fun p => countedPiece p && otherPiece p && (p.c = Color.white))
  let bOther := countB bd (fun p => countedPiece p && otherPiece p && (p.c = Color.black))
  let wMinor := countB bd (fun p => countedPiece p && !otherPiece p && (p.c = Color.white))
  let bMinor := countB bd (fun p => countedPiece p && !otherPiece p && (p.c = Color.black))
  let wB := countB bd (fun p => countedPiece p && !otherPiece p && (p.c = Color.white) && (p.t = PieceType.bishop))
  let wN := countB bd (fun p => countedPiece p && !otherPiece p && (p.c = Color.white) && (p.t = PieceType.knight))
  let bB := countB bd (fun p => countedPiece p && !otherPiece p && (p.c = Color.black) && (p.t = PieceType.bishop))
  let bN := countB bd (fun p => countedPiece p && !otherPiece p && (p.c = Color.black) && (p.t = PieceType.knight))
  if wOther > 0 ∨ bOther > 0 then false
  else if wMinor = 0 ∧ bMinor = 0 then true
  else if wMinor = 1 ∧ bMinor = 0 ∧ (wB = 1 ∨ wN = 1) then true
  else if bMinor = 1 ∧ wMinor = 0 ∧ (bB = 1 ∨ bN = 1) then true
  else if wMinor = 1 ∧ bMinor = 1 ∧ wB = 1 ∧ bB = 1 then true
  else false

/-- Perft: the number of legal move sequences of length `d`, counted with
`genLegalMoves` (whose legality filter is the trial makeMove/undoMove). -/
def perft (bd : Board) : Nat → Nat
  | 0 => 1
  | d + 1 => (bd.genLegalMoves.map (fun m => perft (bd.makeMove m).2.1 d)).sum

/-! ### Mersenne twister (std::mt19937_64)

The Zobrist table is filled from `std::mt19937_64 rng(0xC0FFEE1234ULL)`.
The engine below is the standard 64-bit Mersenne twister with the C++11
parameters, on Nat with explicit reduction modulo 2^64. -/

/-- Two to the 64, the modulus of the 64-bit engine. -/
def m64 : Nat := 18446744073709551616

/-- The tempering function of mt19937_64. Shifted-left intermediates are
truncated by the 64-bit masks they are ANDed with. -/
def mtTemper (y : Nat) : Nat :=
  let y1 := y ^^^ ((y >>> 29) &&& 0x5555555555555555)
  let y2 := y1 ^^^ ((y1 <<< 17) &&& 0x71D67FFFEDA60000)
  let y3 := y2 ^^^ ((y2 <<< 37) &&& 0xFFF7EEE000000000)
  y3 ^^^ (y3 >>> 43)

/-- State initialisation: `x[i] = f*(x[i-1] ^ (x[i-1] >> 62)) + i mod 2^64`
for `i = 1..311`; produces the entries after the seed entry. -/
def mtSeedAux (prev i : Nat) : Nat → List Nat
  | 0 => []
  | k + 1 =>
    let x := (6364136223846793005 * (prev ^^^ (prev >>> 62)) + i) % m64
    x :: mtSeedAux x (i + 1) k

/-- The 312-word initial state for a seed. -/
def mtSeedState (seed : Nat) : List Nat :=
  let s0 := seed % m64
  s0 :: mtSeedAux s0 1 311

/-- One step of the recurrence over the sliding 312-word window
`[x_(i-312), ..., x_(i-1)]`: combine the upper 33 bits of the oldest word
with the lower 31 bits of the next, twist, and output the tempered word. -/
def mtNext (w : List Nat) : Nat × List Nat :=
  let x0 := w.getD 0 0
  let x1 := w.getD 1 0
  let xm := w.getD 156 0
  let y := (x0 &&& 0xFFFFFFFF80000000) ||| (x1 &&& 0x7FFFFFFF)
  let xNew := xm ^^^ (y >>> 1) ^^^ (if y % 2 = 1 then 0xB5026F5AA96619E9 else 0)
  (mtTemper xNew, w.tail ++ [xNew])

/-- The first `n` outputs of the engine from a state window. -/
def mtDraws (w : List Nat) : Nat → List Nat
  | 0 => []
  | k + 1 =>
    let p := mtNext w
    p.1 :: mtDraws p.2 k

/-- The first `n` outputs of `std::mt19937_64 rng(seed)`. -/
def mtStream (seed n : Nat) : List Nat :=
  mtDraws (mtSeedState seed) n

/-- The 922 draws consumed by the `Zobrist` constructor, in order:
`psq[c][pt][s]` (c outer, pt middle, s inner), then `sideToMove`, then
`castling[0..15]`, then `epFile[0..8]`. -/
def zobristDraws : List Nat := mtStream 0xC0FFEE1234 922

/-- The engine's Zobrist table (the `Zobrist()` constructor). -/
def mkZobrist : Zobrist :=
  { psq := fun c pt s => zobristDraws.getD (c * 448 + pt * 64 + s) 0
    sideToMove := zobristDraws.getD 896 0
    castling := fun i => zobristDraws.getD (897 + i) 0
    epFile := fun i => zobristDraws.getD (913 + i) 0 }

/-- A collision-free Zobrist table with the same index layout as the
engine constructor: every key is a distinct power of two, so XOR
accumulation is injective on key sets. The concrete test positions use
this table in place of the PRNG-filled `mkZobrist`: the engine only ever
XORs the keys, so only their distinctness matters, and evaluation stays
cheap. -/
def diagZobrist : Zobrist :=
  { psq := fun c pt s => 2 ^ (c * 448 + pt * 64 + s)
    sideToMove := 2 ^ 896
    castling := fun i => 2 ^ (897 + i)
    epFile := fun i => 2 ^ (913 + i) }

/-! ### Transposition table -/

/-- TT bound flags (`enum class TTFlag : u8 { Exact=0, Lower=1, Upper=2 }`). -/
inductive TTFlag where
  | exact
  | lower
  | upper
deriving DecidableEq, Repr

/-- A TT entry; `score` models the `int16_t` field and `depth` the `int8_t`
field, with the narrowing conversions made explicit in `store`. -/
structure TTEntry where
  key : Nat := 0
  score : Int := 0
  depth : Int := 0
  flag : TTFlag := TTFlag.exact
  best : Move := {}
deriving DecidableEq, Repr

/-- The C++ two's-complement narrowing conversion to `int8_t`. -/
def wrap8 (x : Int) : Int := (x + 128) % 256 - 128

/-- The C++ two's-complement narrowing conversion to `int16_t`. -/
def wrap16 (x : Int) : Int := (x + 32768) % 65536 - 32768

/-- std::clamp. -/
def clampI (x lo hi : Int) : Int := max lo (min x hi)

/-- TranspositionTable: a vector of entries and an index mask. -/
structure TranspositionTable where
  table : List TTEntry := []
  mask : Nat := 0

/-- Size in bytes of `TTEntry` (u64 + i16 + i8 + u8 flag + 6-byte Move,
padded to the 8-byte alignment of the u64 key on the LP64 ABI the engine
is built for). Modelled from the spec: `sizeof(TTEntry)` itself is not in
the source text. -/
def sizeofTTEntry : Nat := 24

/-- The `while(p < n) p <<= 1;` loop of `resizeMB`. Each pass doubles `p`,
so `n` passes of fuel are more than enough for the loop to finish. -/
def ttRoundGo (n : Nat) : Nat → Nat → Nat
  | p, 0 => p
  | p, fuel + 1 => if p < n then ttRoundGo n (p * 2) fuel else p

/-- Entry-count rounding of `resizeMB`, starting from `p = 1`. -/
def ttRound (n : Nat) : Nat := ttRoundGo n 1 n

/-- TranspositionTable::resizeMB from the source. -/
def TranspositionTable.resizeMB (_tt : TranspositionTable) (mb : Nat) :
    TranspositionTable :=
  let bytes := mb * 1024 * 1024
  let n := max 1 (bytes / sizeofTTEntry)
  let p := ttRound n
  { table := List.replicate p {}, mask := p - 1 }

/-- TranspositionTable::probe: the slot at `key & mask`, none when the
table is empty (the source returns a null pointer). -/
def TranspositionTable.probe (tt : TranspositionTable) (key : Nat) :
    Option TTEntry :=
  if tt.table.isEmpty then Option.none
  else Option.some (tt.table.getD (key &&& tt.mask) {})

/-- TranspositionTable::store: replace when the slot is empty, holds the
same key, or the new depth is at least the stored depth; the written depth
and score go through `std::clamp` and the narrowing casts. -/
def TranspositionTable.store (tt : TranspositionTable) (key : Nat)
    (depth score : Int) (flag : TTFlag) (best : Move) : TranspositionTable :=
  if tt.table.isEmpty then tt
  else
    let idx := key &&& tt.mask
    let e := tt.table.getD idx {}
    if e.key = 0 ∨ e.key = key ∨ depth ≥ e.depth then
      let e1 : TTEntry :=
        { key := key
          depth := wrap8 (clampI depth 0 127)
          score := wrap16 (clampI score (-32767) 32767)
          flag := flag
          best := best }
      { tt with table := tt.table.set idx e1 }
    else tt

/-! ### Evaluation -/

/-- Vertical mirroring of a square index (`mirrorIndex`). -/
def mirrorIndex (idx : Nat) : Nat :=
  let f := idx % 8
  let r := idx / 8
  (7 - r) * 8 + f

/-- PST tables from the source, square 0 = a1 .. 63 = h8, White's view. -/
def PST_PAWN : List Int :=
  [ 0,  0,  0,  0,  0,  0,  0,  0,
   50, 50, 50, 55, 55, 50, 50, 50,
   10, 10, 20, 30, 30, 20, 10, 10,
    5,  5, 10, 25, 25, 10,  5,  5,
    0,  0,  0, 20, 20,  0,  0,  0,
    5, -5,-10,  0,  0,-10, -5,  5,
    5, 10, 10,-20,-20, 10, 10,  5,
    0,  0,  0,  0,  0,  0,  0,  0]

/-- Knight PST. -/
def PST_KNIGHT : List Int :=
  [-50,-40,-30,-30,-30,-30,-40,-50,
   -40,-20,  0,  5,  5,  0,-20,-40,
   -30,  5, 10, 15, 15, 10,  5,-30,
   -30,  0, 15, 20, 20, 15,  0,-30,
   -30,  5, 15, 20, 20, 15,  5,-30,
   -30,  0, 10, 15, 15, 10,  0,-30,
   -40,-20,  0,  0,  0,  0,-20,-40,
   -50,-40,-30,-30,-30,-30,-40,-50]

/-- Bishop PST. -/
def PST_BISHOP : List Int :=
  [-20,-10,-10,-10,-10,-10,-10,-20,
   -10,  5,  0,  0,  0,  0,  5,-10,
   -10, 10, 10, 10, 10, 10, 10,-10,
   -10,  0, 10, 10, 10, 10,  0,-10,
   -10,  5,  5, 10, 10,  5,  5,-10,
   -10,  0,  5, 10, 10,  5,  0,-10,
   -10,  0,  0,  0,  0,  0,  0,-10,
   -20,-10,-10,-10,-10,-10,-10,-20]

/-- Rook PST. -/
def PST_ROOK : List Int :=
  [  0,  0,  5, 10, 10,  5,  0,  0,
    -5,  0,  0,  0,  0,  0,  0, -5,
    -5,  0,  0,  0,  0,  0,  0, -5,
    -5,  0,  0,  0,  0,  0,  0, -5,
    -5,  0,  0,  0,  0,  0,  0, -5,
    -5,  0,  0,  0,  0,  0,  0, -5,
     5, 10, 10, 10, 10, 10, 10,  5,
     0,  0,  0,  0,  0,  0,  0,  0]

/-- Queen PST. -/
def PST_QUEEN : List Int :=
  [-20,-10,-10, -5, -5,-10,-10,-20,
   -10,  0,  0,  0,  0,  0,  0,-10,
   -10,  0,  5,  5,  5,  5,  0,-10,
    -5,  0,  5,  5,  5,  5,  0, -5,
     0,  0,  5,  5,  5,  5,  0, -5,
   -10,  5,  5,  5,  5,  5,  0,-10,
   -10,  0,  5,  0,  0,  0,  0,-10,
   -20,-10,-10, -5, -5,-10,-10,-20]

/-- Middlegame king PST. -/
def PST_KING_MG : List Int :=
  [-30,-40,-40,-50,-50,-40,-40,-30,
   -30,-40,-40,-50,-50,-40,-40,-30,
   -30,-40,-40,-50,-50,-40,-40,-30,
   -30,-40,-40,-50,-50,-40,-40,-30,
   -20,-30,-30,-40,-40,-30,-30,-20,
   -10,-20,-20,-20,-20,-20,-20,-10,
    20, 20,  0,  0,  0,  0, 20, 20,
    20, 30, 10,  0,  0, 10, 30, 20]

/-- Endgame king PST. -/
def PST_KING_EG : List Int :=
  [-50,-40,-30,-20,-20,-30,-40,-50,
   -30,-20,-10,  0,  0,-10,-20,-30,
   -30,-10, 20, 30, 30, 20,-10,-30,
   -30,-10, 30, 40, 40, 30,-10,-30,
   -30,-10, 30, 40, 40, 30,-10,-30,
   -30,-10, 20, 30, 30, 20,-10,-30,
   -30,-30,  0,  0,  0,  0,-30,-30,
   -50,-30,-30,-30,-30,-30,-30,-50]

/-- pstScore from the source. -/
def pstScore (t : PieceType) (idxW : Nat) (endgameKing : Bool) : Int :=
  match t with
  | PieceType.pawn => PST_PAWN.getD idxW 0
  | PieceType.knight => PST_KNIGHT.getD idxW 0
  | PieceType.bishop => PST_BISHOP.getD idxW 0
  | PieceType.rook => PST_ROOK.getD idxW 0
  | PieceType.queen => PST_QUEEN.getD idxW 0
  | PieceType.king =>
    if endgameKing then PST_KING_EG.getD idxW 0 else PST_KING_MG.getD idxW 0
  | PieceType.none => 0

/-- Per-piece phase weight (skip None/King/Pawn; N=B=1, R=2, Q=4). -/
def phaseW (p : Piece) : Int :=
  if p.t = PieceType.none ∨ p.t = PieceType.king ∨ p.t = PieceType.pawn then 0
  else if p.t = PieceType.knight ∨ p.t = PieceType.bishop then 1
  else if p.t = PieceType.rook then 2
  else 4

/-- Game phase: the weight sum over the board, clamped to [0,24]. -/
def phaseOf (bd : Board) : Int :=
  clampI (((List.range 64).map (fun i => phaseW (bd.b i))).sum) 0 24

/-- Per-square material term of the evaluation loop. -/
def matTerm (p : Piece) : Int :=
  if p.t = PieceType.none then 0
  else if p.c = Color.white then pieceValue p.t else -pieceValue p.t

/-- Per-square PST term of the evaluation loop (mirrored index for Black). -/
def pstTerm (p : Piece) (i : Nat) (endgameKing : Bool) : Int :=
  if p.t = PieceType.none then 0
  else
    let idxW := if p.c = Color.white then i else mirrorIndex i
    if p.c = Color.white then pstScore p.t idxW endgameKing
    else -pstScore p.t idxW endgameKing

/-- Number of pawns of color `c` on file `f` (the `wpFile`/`bpFile`
counters of the evaluation loop). -/
def pawnsOnFile (bd : Board) (c : Color) (f : Nat) : Nat :=
  ((List.range 8).filter (fun r =>
    decide ((bd.b (r * 8 + f)).t = PieceType.pawn ∧ (bd.b (r * 8 + f)).c = c))).length

/-- Doubled/isolated pawn terms for one file, White perspective. -/
def pawnStructTerm (bd : Board) (f : Nat) : Int :=
  let wp := pawnsOnFile bd Color.white
  let bp := pawnsOnFile bd Color.black
  (if wp f ≥ 2 then -(12 * ((wp f : Int) - 1)) else 0) +
  (if bp f ≥ 2 then 12 * ((bp f : Int) - 1) else 0) +
  (if wp f > 0 ∧ ¬((0 < f ∧ wp (f - 1) > 0) ∨ (f < 7 ∧ wp (f + 1) > 0))
   then -10 else 0) +
  (if bp f > 0 ∧ ¬((0 < f ∧ bp (f - 1) > 0) ∨ (f < 7 ∧ bp (f + 1) > 0))
   then 10 else 0)

/-- Mobility from White's point of view: pseudo-move counts with the side
to move forced to White and then to Black, difference times 2. (The first
`mob` block of the source computes a value that is never used afterwards;
only this White-POV block reaches `scoreWhite`.) -/
def mobilityOf (bd : Board) : Int :=
  let w := ({ bd with stm := Color.white } : Board).genPseudoMoves.length
  let b := ({ bd with stm := Color.black } : Board).genPseudoMoves.length
  ((w : Int) - (b : Int)) * 2

/-- The `kingCentrePenalty` lambda. The color parameter only feeds the
unused local `dr` in the source, so the penalty depends on the absolute
rank alone. -/
def kingCentrePenalty (kIdx : Int) (_c : Color) : Int :=
  if kIdx < 0 then 0
  else
    let f := kIdx % 8
    let r := kIdx / 8
    let df := (f - 4).natAbs
    (if df ≤ 1 ∧ (r = 0 ∨ r = 7) then 10 else 0) +
    (if df ≤ 1 ∧ (r = 1 ∨ r = 6) then 20 else 0) +
    (if df ≤ 1 ∧ (r = 2 ∨ r = 5) then 35 else 0)

/-- King-safety term of `evaluate` (zero in the endgame). -/
def kingSafetyOf (bd : Board) (endgameKing : Bool) : Int :=
  if endgameKing then 0
  else
    let wK := bd.findKing Color.white
    let bK := bd.findKing Color.black
    let ks := -kingCentrePenalty wK Color.white + kingCentrePenalty bK Color.black
    let wCanCastle := bd.castling &&& 3 ≠ 0
    let bCanCastle := bd.castling &&& 12 ≠ 0
    ks + (if ¬wCanCastle then -10 else 0) + (if ¬bCanCastle then 10 else 0)

/-- White-perspective score assembled by `evaluate`. -/
def scoreWhiteOf (bd : Board) : Int :=
  let endgameKing := phaseOf bd ≤ 8
  let material := ((List.range 64).map (fun i => matTerm (bd.b i))).sum
  let pst := ((List.range 64).map (fun i => pstTerm (bd.b i) i endgameKing)).sum
  let whiteBishops := countB bd (fun p =>
    decide (p.t = PieceType.bishop ∧ p.c = Color.white))
  let blackBishops := countB bd (fun p =>
    decide (p.t = PieceType.bishop ∧ p.c = Color.black))
  let bishopPair :=
    (if whiteBishops ≥ 2 then (30 : Int) else 0) +
    (if blackBishops ≥ 2 then (-30 : Int) else 0)
  let pawnStruct := ((List.range 8).map (pawnStructTerm bd)).sum
  material + pst + bishopPair + pawnStruct + mobilityOf bd +
    kingSafetyOf bd endgameKing

/-- evaluate: White-perspective score, negated for Black to move. -/
def evaluate (bd : Board) : Int :=
  if bd.stm = Color.white then scoreWhiteOf bd else -scoreWhiteOf bd

/-! ### Search

The search is embedded as a pure function over an explicit
`SearchContext`. Wall-clock time is not representable in the embedding:
`timeUp` keeps its sticky `stop` flag but the clock itself never expires,
so the functions below model exactly the executions in which the time
budget is never exceeded. All recursions additionally carry a fuel
parameter; with enough fuel the fuel never runs out and the source
recursion is reproduced verbatim. -/

/-- Search statistics; `timeMs` stays 0 because the clock is not modelled. -/
structure SearchStats where
  nodes : Nat := 0
  qnodes : Nat := 0
  depthReached : Int := 0
  bestScore : Int := 0
  timeMs : Int := 0
deriving DecidableEq, Repr

/-- SearchContext from the source: TT, statistics, the sticky stop flag,
killer slots, history counters and the repetition stack. The killer array
and the history array are modelled as total functions. -/
structure SearchContext where
  tt : TranspositionTable := {}
  stats : SearchStats := {}
  timeLimitMs : Int := 1000
  stop : Bool := false
  killer : Int → Nat → Move := fun _ _ => {}
  history : Nat → Nat → Nat → Int := fun _ _ _ => 0
  repetition : List Nat := []

/-- timeUp: the source checks the sticky flag and then the monotonic
clock; in the embedding the clock never expires, so only the flag remains. -/
def timeUp (ctx : SearchContext) : Bool := ctx.stop

/-- sameMove from the source: equality on (from, to, promo, castle, ep). -/
def sameMove (a b : Move) : Bool :=
  decide (a.fromSq = b.fromSq ∧ a.toSq = b.toSq ∧ a.promo = b.promo ∧
    a.isCastle = b.isCastle ∧ a.isEnPassant = b.isEnPassant)

/-- mvvLvaScore: ten times the victim value minus the attacker value;
the en-passant victim is a pawn. -/
def mvvLvaScore (bd : Board) (m : Move) : Int :=
  let attacker := pieceValue (bd.b m.fromSq).t
  let victim : Int :=
    if m.isEnPassant then pieceValue PieceType.pawn
    else if m.isCapture then pieceValue (bd.b m.toSq).t
    else 0
  victim * 10 - attacker

/-- scoreMove: TT move, then captures by MVV-LVA, then killers, then the
history counter. -/
def scoreMove (bd : Board) (ctx : SearchContext) (m ttMove : Move)
    (ply : Int) : Int :=
  if ttMove.fromSq = m.fromSq ∧ ttMove.toSq = m.toSq ∧ ttMove.promo = m.promo
  then 1000000
  else if m.isCapture || m.isEnPassant then 100000 + mvvLvaScore bd m
  else if ply < 128 ∧ sameMove m (ctx.killer ply 0) = true then 90000
  else if ply < 128 ∧ sameMove m (ctx.killer ply 1) = true then 80000
  else ctx.history (colorIdx bd.stm) m.fromSq m.toSq

/-- Killer update on a quiet beta cutoff: when the move differs from slot 0,
shift slot 0 into slot 1 and store the move in slot 0. -/
def updKiller (k : Int → Nat → Move) (ply : Int) (m : Move) : Int → Nat → Move :=
  if sameMove (k ply 0) m then k
  else fun p s =>
    if p = ply then (if s = 0 then m else if s = 1 then k ply 0 else k p s)
    else k p s

/-- History update on a quiet beta cutoff, capped at 90000. -/
def updHistory (h : Nat → Nat → Nat → Int) (side fromSq toSq : Nat)
    (depth : Int) : Nat → Nat → Nat → Int :=
  fun a b c =>
    if a = side ∧ b = fromSq ∧ c = toSq then
      min 90000 (h side fromSq toSq + depth * depth * 8)
    else h a b c

/-- Score sentinel `INF`. -/
def INF : Int := 100000000

/-- Mate score base `MATE`. -/
def MATE : Int := 1000000

/-- Insertion step of the descending stable sort. -/
def insertDesc (f : Move → Int) (m : Move) : List Move → List Move
  | [] => [m]
  | x :: xs => if f x < f m then m :: x :: xs else x :: insertDesc f m xs

/-- Descending stable sort by a score function; models the `std::sort`
calls with a `scoreMove(a) > scoreMove(b)` comparator (`std::sort` leaves
the order of equal keys unspecified, so any order consistent with the
comparator is a faithful execution). -/
def sortByScore (f : Move → Int) : List Move → List Move
  | [] => []
  | m :: ms => insertDesc f m (sortByScore f ms)

/-- The move loop of quiescence; `qs` is the quiescence recursion at the
next fuel level, so that the mutual while/recursion pair of the source
becomes structural recursion on the move list. -/
def qsLoop (qs : Board → SearchContext → Int → Int → Int × SearchContext)
    (bd : Board) : List Move → Int → Int → SearchContext → Int × SearchContext
  | [], alpha, _, ctx => (alpha, ctx)
  | m :: rest, alpha, beta, ctx =>
    match bd.makeMove m with
    | (ok, bd2, _) =>
      if ok = false then qsLoop qs bd rest alpha beta ctx
      else
        let r := qs bd2 ctx (-beta) (-alpha)
        let score := -r.1
        if score ≥ beta then (beta, r.2)
        else qsLoop qs bd rest (max alpha score) beta r.2

/-- quiescence from the source: stand pat against beta, then the legal
noisy moves (captures, en passants, promotions) in MVV-LVA order. -/
def quiescence : Nat → Board → SearchContext → Int → Int → Int × SearchContext
  | 0, _, ctx, _, _ => (0, ctx)
  | fuel' + 1, bd, ctx, alpha, beta =>
    if timeUp ctx then (0, ctx)
    else
      let st1 := { ctx.stats with qnodes := ctx.stats.qnodes + 1 }
      let ctx := { ctx with stats := st1 }
      let stand := evaluate bd
      if stand ≥ beta then (beta, ctx)
      else
        let alpha1 := max alpha stand
        let moves := bd.genPseudoMoves.filter (fun m =>
          (m.isCapture || m.isEnPassant || decide (m.promo ≠ PieceType.none)) &&
            (bd.makeMove m).1)
        let sorted := sortByScore (fun m => mvvLvaScore bd m) moves
        qsLoop (quiescence fuel') bd sorted alpha1 beta ctx

/-- The move loop of negamax (result: best, bestMove, context, aborted);
`nm` is the negamax recursion at the next fuel level. -/
def nmLoop (nm : Board → SearchContext → Int → Int → Int → Int → Int × SearchContext)
    (bd : Board) (depth beta ply : Int) :
    List Move → Nat → Int → Move → Int → SearchContext →
      Int × Move × SearchContext × Bool
  | [], _, best, bestM, _, ctx => (best, bestM, ctx, false)
  | m :: rest, i, best, bestM, alpha, ctx =>
    match bd.makeMove m with
    | (ok, bd2, _) =>
      if ok = false then nmLoop nm bd depth beta ply rest (i + 1) best bestM alpha ctx
      else
        let ctxP := { ctx with repetition := ctx.repetition ++ [bd2.hash] }
        let newDepth := depth - 1
        let isQuiet :=
          (m.isCapture = false ∧ m.isEnPassant = false) ∧ m.promo = PieceType.none
        let sr : Int × SearchContext :=
          if newDepth ≥ 3 ∧ 4 ≤ i ∧ isQuiet ∧ bd2.inCheck bd2.stm = false then
            let r1 := nm bd2 ctxP (newDepth - 1) (-alpha - 1) (-alpha) (ply + 1)
            let score1 := -r1.1
            if score1 > alpha then
              let r2 := nm bd2 r1.2 newDepth (-beta) (-alpha) (ply + 1)
              (-r2.1, r2.2)
            else (score1, r1.2)
          else
            let r := nm bd2 ctxP newDepth (-beta) (-alpha) (ply + 1)
            (-r.1, r.2)
        let score := sr.1
        let ctx1 := { sr.2 with repetition := sr.2.repetition.dropLast }
        if ctx1.stop then (0, bestM, ctx1, true)
        else
          let bb := if score > best then (score, m) else (best, bestM)
          let alpha2 := max alpha score
          if alpha2 ≥ beta then
            let ctx2 :=
              if isQuiet ∧ ply < 128 then
                let k1 := updKiller ctx1.killer ply m
                let h1 := updHistory ctx1.history (colorIdx bd.stm) m.fromSq m.toSq depth
                { ctx1 with killer := k1, history := h1 }
              else ctx1
            (bb.1, bb.2, ctx2, false)
          else nmLoop nm bd depth beta ply rest (i + 1) bb.1 bb.2 alpha2 ctx1

/-- The part of negamax below the TT probe: quiescence at depth 0, the
mate/stalemate leaf, and the sorted move loop with the final TT store.
`nm` and `qs` are the recursions at the next fuel level. -/
def nmMain (nm : Board → SearchContext → Int → Int → Int → Int → Int × SearchContext)
    (qs : Board → SearchContext → Int → Int → Int × SearchContext)
    (bd : Board) (ctx : SearchContext) (depth alpha1 beta1 ply : Int)
    (ttMove : Move) : Int × SearchContext :=
  let moves := bd.genLegalMoves
  if depth = 0 then qs bd ctx alpha1 beta1
  else if moves.isEmpty then
    (if bd.inCheck bd.stm then -MATE + ply else 0, ctx)
  else
    let sorted := sortByScore (fun m => scoreMove bd ctx m ttMove ply) moves
    let r := nmLoop nm bd depth beta1 ply sorted 0 (-INF) {} alpha1 ctx
    if r.2.2.2 then (0, r.2.2.1)
    else
      let best := r.1
      let bestM := r.2.1
      let ctxL := r.2.2.1
      let flag :=
        if best ≤ alpha1 then TTFlag.upper
        else if best ≥ beta1 then TTFlag.lower
        else TTFlag.exact
      let ctxS := { ctxL with tt := ctxL.tt.store bd.hash depth best flag bestM }
      (best, ctxS)

/-- negamax from the source: time check, node count, the three draw
checks, TT probe with possible cutoff, quiescence at depth 0, mate and
stalemate detection, the ordered move loop with LMR and killer/history
updates, and the final TT store. An aborted loop (stop flag) returns 0
without storing, exactly as the `return 0` in the source loop. -/
def negamax : Nat → Board → SearchContext → Int → Int → Int → Int →
    Int × SearchContext
  | 0, _, ctx, _, _, _, _ => (0, ctx)
  | fuel' + 1, bd, ctx, depth, alpha, beta, ply =>
    if timeUp ctx then (0, ctx)
    else
      let st1 := { ctx.stats with nodes := ctx.stats.nodes + 1 }
      let ctx := { ctx with stats := st1 }
      if bd.insufficientMaterial then (0, ctx)
      else if bd.halfmoveClock ≥ 100 then (0, ctx)
      else if 2 ≤ (ctx.repetition.filter (fun h => decide (h = bd.hash))).length
      then (0, ctx)
      else
        let probeRes := ctx.tt.probe bd.hash
        let ttMove : Move :=
          match probeRes with
          | Option.some e => if e.key = bd.hash then e.best else {}
          | Option.none => {}
        let ttRes : Option Int × Int × Int :=
          match probeRes with
          | Option.none => (Option.none, alpha, beta)
          | Option.some e =>
            if e.key = bd.hash ∧ e.depth ≥ depth then
              let s := e.score
              if e.flag = TTFlag.exact then (Option.some s, alpha, beta)
              else
                let a2 := if e.flag = TTFlag.lower then max alpha s else alpha
                let b2 := if e.flag = TTFlag.upper then min beta s else beta
                if a2 ≥ b2 then (Option.some s, a2, b2)
                else (Option.none, a2, b2)
            else (Option.none, alpha, beta)
        match ttRes.1 with
        | Option.some s => (s, ctx)
        | Option.none =>
          nmMain (negamax fuel') (quiescence fuel') bd ctx depth
            ttRes.2.1 ttRes.2.2 ply ttMove

/-- The root move loop of `searchBestMove` (result: localBest, localMove,
context). Mirrors the source loop including the single full-window
re-search on an aspiration fail-high, after which the loop breaks. -/
def rootScan (fuel : Nat) (bd : Board) (d : Int) (ms : List Move)
    (alpha beta localBest : Int) (localMove : Move) (ctx : SearchContext) :
    Int × Move × SearchContext :=
  match ms with
  | [] => (localBest, localMove, ctx)
  | m :: rest =>
    if timeUp ctx then (localBest, localMove, ctx)
    else
      match bd.makeMove m with
      | (ok, bd2, _) =>
        if ok = false then rootScan fuel bd d rest alpha beta localBest localMove ctx
        else
          let ctxP := { ctx with repetition := ctx.repetition ++ [bd2.hash] }
          let r := negamax fuel bd2 ctxP (d - 1) (-beta) (-alpha) 1
          let score := -r.1
          let ctx1 := { r.2 with repetition := r.2.repetition.dropLast }
          if ctx1.stop then (localBest, localMove, ctx1)
          else
            let bb := if score > localBest then (score, m) else (localBest, localMove)
            let alpha1 := max alpha score
            if alpha1 ≥ beta then
              match bd.makeMove m with
              | (ok2, bd2b, _) =>
                if ok2 then
                  let ctxP2 := { ctx1 with repetition := ctx1.repetition ++ [bd2b.hash] }
                  let r2 := negamax fuel bd2b ctxP2 (d - 1) (-INF) INF 1
                  let score2 := -r2.1
                  let ctx2 := { r2.2 with repetition := r2.2.repetition.dropLast }
                  if ctx2.stop = false ∧ score2 > bb.1 then (score2, m, ctx2)
                  else (bb.1, bb.2, ctx2)
                else (bb.1, bb.2, ctx1)
            else rootScan fuel bd d rest alpha1 beta bb.1 bb.2 ctx1

/-- The iterative-deepening loop of `searchBestMove`; `k` iterations
remain and `d` is the current depth. A completed, unstopped iteration
commits localBest/localMove and records `depthReached = d` and
`bestScore`. The root move list is threaded because the source re-sorts
it in place each iteration. -/
def idLoop (fuel : Nat) (bd : Board) :
    Nat → Int → List Move → Move → Int → SearchContext →
      List Move × Move × Int × SearchContext
  | 0, _, rootMoves, bestMove, bestScore, ctx => (rootMoves, bestMove, bestScore, ctx)
  | k + 1, d, rootMoves, bestMove, bestScore, ctx =>
    if timeUp ctx then (rootMoves, bestMove, bestScore, ctx)
    else
      let alpha := if d ≥ 3 then bestScore - 50 else -INF
      let beta := if d ≥ 3 then bestScore + 50 else INF
      let ttMove : Move :=
        match ctx.tt.probe bd.hash with
        | Option.some e => if e.key = bd.hash then e.best else {}
        | Option.none => {}
      let sorted := sortByScore (fun m => scoreMove bd ctx m ttMove 0) rootMoves
      let scan := rootScan fuel bd d sorted alpha beta (-INF) (sorted.headD {}) ctx
      let ctx1 := scan.2.2
      if ctx1.stop = false then
        let stats1 := { ctx1.stats with depthReached := d, bestScore := scan.1 }
        idLoop fuel bd k (d + 1) sorted scan.2.1 scan.1 { ctx1 with stats := stats1 }
      else (sorted, bestMove, bestScore, ctx1)

/-- searchBestMove: reset the statistics and the repetition stack (seeded
with the current hash), generate the root moves (empty: sentinel move),
then iterate depths 1..maxDepth. Returns the best move and the final
context (whose `stats` field is the returned SearchStats). -/
def searchBestMove (fuel : Nat) (bd : Board) (ctx : SearchContext)
    (maxDepth timeLimitMs : Int) : Move × SearchContext :=
  let st0 : SearchStats := {}
  let ctx := { ctx with stats := st0, timeLimitMs := timeLimitMs, stop := false, repetition := [bd.hash] }
  let rootMoves := bd.genLegalMoves
  if rootMoves.isEmpty then ({}, ctx)
  else
    let r := idLoop fuel bd maxDepth.toNat 1 rootMoves (rootMoves.headD {}) (-INF) ctx
    (r.2.1, r.2.2.2)

/-! ### Specification predicates and concrete inputs for the claims

The definitions below are not part of the engine embedding: they state the
spec's wording (for comparison against the embedded source functions) and
provide the concrete boards and moves used by counterexamples and
witnesses. -/

/-- Spec wording of the king-centre penalty: 10/20/35 on the first, second
or third rank counted from the king's OWN home rank, nothing elsewhere. -/
def kingCentrePenaltySpec (kIdx : Int) (c : Color) : Int :=
  if kIdx < 0 then 0
  else
    let f := kIdx % 8
    let r := kIdx / 8
    let home : Int := if c = Color.white then 0 else 7
    let d := (r - home).natAbs
    if (f - 4).natAbs ≤ 1 then
      if d = 0 then 10 else if d = 1 then 20 else if d = 2 then 35 else 0
    else 0

/-- Spec wording of the king-safety term, built from
`kingCentrePenaltySpec` plus the castling-rights penalties. -/
def kingSafetySpec (bd : Board) (endgameKing : Bool) : Int :=
  if endgameKing then 0
  else
    -kingCentrePenaltySpec (bd.findKing Color.white) Color.white +
      kingCentrePenaltySpec (bd.findKing Color.black) Color.black +
      (if bd.castling &&& 3 = 0 then -10 else 0) +
      (if bd.castling &&& 12 = 0 then 10 else 0)

/-- Amended wording: the code scales the penalty by the distance to the
NEARER back rank (ranks 0/1/2 and 7/6/5 give 10/20/35), without regard to
which side the king belongs to. -/
def kingCentrePenaltyAmended (kIdx : Int) : Int :=
  if kIdx < 0 then 0
  else
    let f := kIdx % 8
    let r := kIdx / 8
    let d := min (r - 0).natAbs (r - 7).natAbs
    if (f - 4).natAbs ≤ 1 then
      if d = 0 then 10 else if d = 1 then 20 else if d = 2 then 35 else 0
    else 0

/-- King-safety term as amended (nearer-back-rank distance). -/
def kingSafetyAmended (bd : Board) (endgameKing : Bool) : Int :=
  if endgameKing then 0
  else
    -kingCentrePenaltyAmended (bd.findKing Color.white) +
      kingCentrePenaltyAmended (bd.findKing Color.black) +
      (if bd.castling &&& 3 = 0 then -10 else 0) +
      (if bd.castling &&& 12 = 0 then 10 else 0)

/-- Board refuting the own-home-rank reading of the king-safety penalty:
the White king stands on e8 (rank 7), which the code penalises by 10 but
the spec wording does not penalise at all. Both sides have lost castling,
so those terms cancel; two White queens and a rook put the phase at 10. -/
def c7Board : Board :=
  let b0 := setSq (setSq (setSq (setSq (setSq emptyBoardFn
    60 { t := PieceType.king, c := Color.white })
    32 { t := PieceType.king, c := Color.black })
    0 { t := PieceType.queen, c := Color.white })
    7 { t := PieceType.queen, c := Color.white })
    15 { t := PieceType.rook, c := Color.white }
  { b := b0, stm := Color.white, epSquare := -1, castling := 0,
    halfmoveClock := 0, hash := 0, z := Option.none }

/-- Count of pieces of one exact (type, color) on the board. -/
def countPieces (bd : Board) (c : Color) (t : PieceType) : Nat :=
  countB bd (fun p => decide (p.t = t ∧ p.c = c))

/-- Spec wording of the insufficient-material test: kings aside, neither
side has a pawn, rook or queen, and either both sides have no minor
pieces, or one side has exactly one minor (bishop or knight) and the
other none, or each side has exactly one bishop and no knight. -/
def insufficientMaterialSpec (bd : Board) : Prop :=
  let wP := countPieces bd Color.white PieceType.pawn
  let wR := countPieces bd Color.white PieceType.rook
  let wQ := countPieces bd Color.white PieceType.queen
  let bP := countPieces bd Color.black PieceType.pawn
  let bR := countPieces bd Color.black PieceType.rook
  let bQ := countPieces bd Color.black PieceType.queen
  let wB := countPieces bd Color.white PieceType.bishop
  let wN := countPieces bd Color.white PieceType.knight
  let bB := countPieces bd Color.black PieceType.bishop
  let bN := countPieces bd Color.black PieceType.knight
  (wP = 0 ∧ wR = 0 ∧ wQ = 0 ∧ bP = 0 ∧ bR = 0 ∧ bQ = 0) ∧
  ((wB + wN = 0 ∧ bB + bN = 0) ∨
   (wB + wN = 1 ∧ bB + bN = 0) ∨
   (bB + bN = 1 ∧ wB + wN = 0) ∨
   (wB = 1 ∧ wN = 0 ∧ bB = 1 ∧ bN = 0))

/-- Bare-kings board (White king a1, Black king a8): insufficient
material, used as the witness input for the draw-at-node claim. -/
def kkBoard : Board :=
  let b0 := setSq (setSq emptyBoardFn 0 { t := PieceType.king, c := Color.white })
    56 { t := PieceType.king, c := Color.black }
  { b := b0, stm := Color.white, epSquare := -1, castling := 0,
    halfmoveClock := 0, hash := 0, z := Option.none }

/-- The arbitrary (non-generated) move a1→a2 used to refute the claims
that quantify over ALL moves: from the starting position it moves the a1
rook onto the a2 pawn without the capture flag, `makeMove` accepts it, and
the overwritten pawn's Zobrist key is never removed from the hash. -/
def badMove : Move := { fromSq := 0, toSq := 8 }

/-- Board for the C4 counterexample: White Ke1, Ne2, Pf3; Black Ra8→e8
pins the knight. The non-generated quiet move e2→f3 (capture flag clear)
overwrites the f3 pawn, fails the legality test, and the restore path
cannot bring the pawn back. -/
def c4Board : Board :=
  let b0 := setSq (setSq (setSq (setSq (setSq emptyBoardFn
    4 { t := PieceType.king, c := Color.white })
    12 { t := PieceType.knight, c := Color.white })
    21 { t := PieceType.pawn, c := Color.white })
    60 { t := PieceType.rook, c := Color.black })
    56 { t := PieceType.king, c := Color.black }
  { b := b0, stm := Color.white, epSquare := -1, castling := 0,
    halfmoveClock := 0, hash := 0, z := Option.none }

/-- The ill-formed quiet move of the C4 counterexample. -/
def c4Move : Move := { fromSq := 12, toSq := 21 }

/-- KRvK board for the C5 counterexample: White king a1, Black king a8,
Black rook h8, Black to move, with the collision-free Zobrist table
attached (hashes drive the repetition check and TT of the search). -/
def krkZ : Board :=
  let b0 := setSq (setSq (setSq emptyBoardFn
    0 { t := PieceType.king, c := Color.white })
    56 { t := PieceType.king, c := Color.black })
    63 { t := PieceType.rook, c := Color.black }
  Board.recomputeHash
    { b := b0, stm := Color.black, epSquare := -1, castling := 0,
      halfmoveClock := 0, hash := 0, z := Option.some diagZobrist }

/-- The depth-1, no-timeout search of the C5 counterexample. -/
def c5Search : Move × SearchContext := searchBestMove 12 krkZ {} 1 1000

/-- The code's own measurement of the returned best move at the completed
iteration (depth 1): minus the negamax value of the position after the
move, searched at depth 0 with the full window the driver uses at depths
below 3 — a score from the MOVER's (Black's) perspective. -/
def c5MeasuredScore : Int :=
  let child := (krkZ.makeMove c5Search.1).2.1
  Neg.neg (negamax 12 child { repetition := [krkZ.hash, child.hash] } 0
    (Neg.neg INF) INF 1).1

/-- MeasuredAt bd d m v: `v` is a value the iteration at depth `d` of the
driver can have measured for root move `m`: minus a negamax value of the
position after `m` at depth d−1 and ply 1 (for some window, context and
fuel — the driver uses the aspiration window or, after a fail-high, the
full window). -/
def MeasuredAt (bd : Board) (d : Int) (m : Move) (v : Int) : Prop :=
  (bd.makeMove m).1 = true ∧
  ∃ (fuel : Nat) (ctx : SearchContext) (alpha beta : Int),
    v = -(negamax fuel (bd.makeMove m).2.1 ctx (d - 1) alpha beta 1).1

/-- Cross-field consistency of the returned statistics: either no
iteration completed (depthReached 0), or no root move was scored
(bestScore is the −INF seed), or bestScore is a value the search measured
for the returned best move at iteration depthReached. -/
def StatsConsistent (bd : Board) (m : Move) (st : SearchStats) : Prop :=
  st.depthReached = 0 ∨ st.bestScore = -INF ∨
    MeasuredAt bd st.depthReached m st.bestScore

/-- Canonical-empty property of a piece array: every square whose type is
None holds the canonical empty piece `Piece{}` (the engine only ever
assigns `Piece{}` to emptied squares). -/
def CanonB (b : Nat → Piece) : Prop :=
  ∀ i, (b i).t = PieceType.none → b i = ({} : Piece)

/-- Structural invariants of boards the engine actually reaches: every
None square is the canonical empty piece (the engine only ever writes
`Piece{}` to emptied squares), and an active en-passant target square is
empty (it was just double-pushed over). -/
def BoardOK (bd : Board) : Prop :=
  (∀ i, (bd.b i).t = PieceType.none → bd.b i = ({} : Piece)) ∧
  (0 ≤ bd.epSquare → bd.b bd.epSquare.toNat = ({} : Piece))

/-- Well-formedness of a move with respect to a board: everything the
pseudo-move generator guarantees about the moves it emits (on a `BoardOK`
board) and that `makeMove`/`undoMove` rely on to be exact inverses and to
keep the hash incremental. -/
def MoveWF (bd : Board) (m : Move) : Prop :=
  let p := bd.b m.fromSq
  p.t ≠ PieceType.none ∧ p.c = bd.stm ∧ m.fromSq < 64 ∧ m.toSq < 64 ∧
  m.fromSq ≠ m.toSq ∧
  (m.promo ≠ PieceType.none → p.t = PieceType.pawn) ∧
  (if m.isEnPassant then
      p.t = PieceType.pawn ∧ m.isCapture = true ∧ m.promo = PieceType.none ∧
      m.isCastle = false ∧ bd.epSquare = (m.toSq : Int) ∧
      bd.b m.toSq = ({} : Piece) ∧
      epCapSq p.c m.toSq < 64 ∧ epCapSq p.c m.toSq ≠ m.fromSq ∧
      epCapSq p.c m.toSq ≠ m.toSq ∧
      (bd.b (epCapSq p.c m.toSq)).t = PieceType.pawn ∧
      (bd.b (epCapSq p.c m.toSq)).c ≠ p.c
   else if m.isCapture then
      (bd.b m.toSq).t ≠ PieceType.none ∧ (bd.b m.toSq).c ≠ p.c ∧
      m.isCastle = false
   else bd.b m.toSq = ({} : Piece)) ∧
  (if m.isCastle then
      m.promo = PieceType.none ∧ m.isCapture = false ∧ m.isEnPassant = false ∧
      p.t = PieceType.king ∧
      ((p.c = Color.white ∧ m.fromSq = 4 ∧
         ((m.toSq = 6 ∧ bd.b 7 = ⟨PieceType.rook, Color.white⟩ ∧
            bd.b 5 = ({} : Piece) ∧ bd.b 6 = ({} : Piece)) ∨
          (m.toSq = 2 ∧ bd.b 0 = ⟨PieceType.rook, Color.white⟩ ∧
            bd.b 1 = ({} : Piece) ∧ bd.b 2 = ({} : Piece) ∧
            bd.b 3 = ({} : Piece)))) ∨
       (p.c = Color.black ∧ m.fromSq = 60 ∧
         ((m.toSq = 62 ∧ bd.b 63 = ⟨PieceType.rook, Color.black⟩ ∧
            bd.b 61 = ({} : Piece) ∧ bd.b 62 = ({} : Piece)) ∨
          (m.toSq = 58 ∧ bd.b 56 = ⟨PieceType.rook, Color.black⟩ ∧
            bd.b 57 = ({} : Piece) ∧ bd.b 58 = ({} : Piece) ∧
            bd.b 59 = ({} : Piece)))))
   else True) ∧
  (p.t = PieceType.pawn ∧ ((m.toSq : Int) / 8 - (m.fromSq : Int) / 8).natAbs = 2 →
    bd.b ((m.fromSq + m.toSq) / 2) = ({} : Piece) ∧
    (m.fromSq + m.toSq) / 2 ≠ m.fromSq ∧ (m.fromSq + m.toSq) / 2 ≠ m.toSq ∧
    m.isCapture = false ∧ m.isEnPassant = false)

/-- Positions reachable from the standard starting position by legal
moves (each step a move from `genLegalMoves`, played by `makeMove`).
`undoMove` of the step's undo record returns to the previous state
bit-for-bit (see the make/undo theorems), so closing under undo adds no
further positions. -/
inductive Reachable (z : Option Zobrist) : Board → Prop where
  | base : Reachable z (startBoard z)
  | step {bd : Board} {m : Move} : Reachable z bd → m ∈ bd.genLegalMoves →
      Reachable z (bd.makeMove m).2.1

/-! ## Theorems -/

/-! ### C6: transposition-table sizing -/

theorem ttRoundGo_pow2 (n : Nat) :
    ∀ fuel p, (∃ i, p = 2 ^ i) → ∃ j, ttRoundGo n p fuel = 2 ^ j := by
  intro fuel
  induction fuel with
  | zero => intro p hp; exact hp
  | succ f ih =>
    intro p hp
    unfold ttRoundGo
    split
    · rcases hp with ⟨i, rfl⟩
      exact ih _ ⟨i + 1, by rw [pow_succ]⟩
    · exact hp

theorem ttRoundGo_ge (n : Nat) :
    ∀ fuel p, 1 ≤ p → n ≤ p + fuel → n ≤ ttRoundGo n p fuel := by
  intro fuel
  induction fuel with
  | zero => intro p _ h; simpa [ttRoundGo] using h
  | succ f ih =>
    intro p hp h
    unfold ttRoundGo
    split
    · exact ih (p * 2) (by omega) (by omega)
    · omega

theorem ttRoundGo_lt (n : Nat) :
    ∀ fuel p, p < 2 * n → ttRoundGo n p fuel < 2 * n := by
  intro fuel
  induction fuel with
  | zero => intro p h; simpa [ttRoundGo] using h
  | succ f ih =>
    intro p h
    unfold ttRoundGo
    split
    · exact ih (p * 2) (by omega)
    · exact h

/-- C6 (amended): `resizeMB` sets the entry count to the SMALLEST power of
two that is at least `max 1 ⌊mb·2²⁰ / sizeof(TTEntry)⌋` — it rounds the
entry count UP to a power of two, not down — and sets `mask` to the entry
count minus one. -/
theorem c6_resize_rounds_up (mb : Nat) :
    (∃ i, (TranspositionTable.resizeMB {} mb).table.length = 2 ^ i) ∧
    max 1 (mb * 1024 * 1024 / sizeofTTEntry) ≤
      (TranspositionTable.resizeMB {} mb).table.length ∧
    (TranspositionTable.resizeMB {} mb).table.length <
      2 * max 1 (mb * 1024 * 1024 / sizeofTTEntry) ∧
    (∀ j, max 1 (mb * 1024 * 1024 / sizeofTTEntry) ≤ 2 ^ j →
      (TranspositionTable.resizeMB {} mb).table.length ≤ 2 ^ j) ∧
    (TranspositionTable.resizeMB {} mb).mask =
      (TranspositionTable.resizeMB {} mb).table.length - 1 := by
  have hlen : (TranspositionTable.resizeMB {} mb).table.length =
      ttRound (max 1 (mb * 1024 * 1024 / sizeofTTEntry)) := by
    simp [TranspositionTable.resizeMB]
  have hmask : (TranspositionTable.resizeMB {} mb).mask =
      ttRound (max 1 (mb * 1024 * 1024 / sizeofTTEntry)) - 1 := rfl
  set n := max 1 (mb * 1024 * 1024 / sizeofTTEntry) with hn
  have hn1 : 1 ≤ n := le_max_left _ _
  have hpow : ∃ i, ttRound n = 2 ^ i := ttRoundGo_pow2 n n 1 ⟨0, rfl⟩
  have hge : n ≤ ttRound n := ttRoundGo_ge n n 1 (by omega) (by omega)
  have hlt : ttRound n < 2 * n := ttRoundGo_lt n n 1 (by omega)
  rw [hlen, hmask]
  refine ⟨hpow, hge, hlt, ?_, rfl⟩
  intro j hj
  rcases hpow with ⟨i, hi⟩
  rw [hi] at hlt ⊢
  have h2 : 2 ^ i < 2 ^ (j + 1) := by
    calc 2 ^ i < 2 * n := hlt
    _ ≤ 2 * 2 ^ j := by omega
    _ = 2 ^ (j + 1) := by rw [pow_succ]; ring
  have : i < j + 1 := (Nat.pow_lt_pow_iff_right (by omega)).mp h2
  exact Nat.pow_le_pow_right (by omega) (by omega)

/-- C6 counterexample: at mb = 1 the entry budget is 43690 = ⌊2²⁰/24⌋,
whose power-of-two round-DOWN is 2¹⁵ = 32768, but the code allocates
2¹⁶ = 65536 entries. -/
theorem c6_counterexample :
    max 1 (1 * 1024 * 1024 / sizeofTTEntry) = 43690 ∧
    (2 : Nat) ^ 15 ≤ 43690 ∧ 43690 < (2 : Nat) ^ 16 ∧
    (TranspositionTable.resizeMB {} 1).table.length = 65536 ∧
    (TranspositionTable.resizeMB {} 1).table.length ≠ (2 : Nat) ^ 15 := by
  have hlen : (TranspositionTable.resizeMB {} 1).table.length =
      ttRound (max 1 (1 * 1024 * 1024 / sizeofTTEntry)) := by
    simp [TranspositionTable.resizeMB]
  refine ⟨by decide, by decide, by decide, ?_, ?_⟩
  · rw [hlen]; decide
  · rw [hlen]; decide

/-! ### C7: king-safety term -/

theorem findKing_range (bd : Board) (c : Color) :
    bd.findKing c = -1 ∨ (0 ≤ bd.findKing c ∧ bd.findKing c < 64) := by
  unfold Board.findKing
  cases h : (List.range 64).find? (fun i =>
      decide ((bd.b i).t = PieceType.king ∧ (bd.b i).c = c)) with
  | none => exact Or.inl rfl
  | some i =>
    right
    have hm := List.mem_of_find?_eq_some h
    have hi : i < 64 := List.mem_range.mp hm
    constructor
    · exact Int.ofNat_nonneg i
    · show (i : Int) < 64
      exact_mod_cast hi

theorem kcp_eq_amended :
    ∀ k : Nat, k < 64 →
      kingCentrePenalty (k : Int) Color.white = kingCentrePenaltyAmended (k : Int) ∧
      kingCentrePenalty (k : Int) Color.black = kingCentrePenaltyAmended (k : Int) := by
  decide

/-- C7 (amended): the king-safety term of `evaluate` equals the spec
wording with "rank counted from its own home rank" replaced by "rank
counted from the nearer back rank": the code keys the 10/20/35 penalty on
the absolute rank (0/1/2 and 7/6/5) regardless of the king's color. -/
theorem c7_king_safety_absolute_rank (bd : Board) (endgameKing : Bool) :
    kingSafetyOf bd endgameKing = kingSafetyAmended bd endgameKing := by
  have hk : ∀ c, kingCentrePenalty (bd.findKing c) c =
      kingCentrePenaltyAmended (bd.findKing c) := by
    intro c
    rcases findKing_range bd c with h | ⟨h0, h64⟩
    · rw [h]; cases c <;> decide
    · have hkn : bd.findKing c = ((bd.findKing c).toNat : Int) :=
        (Int.toNat_of_nonneg h0).symm
      have hlt : (bd.findKing c).toNat < 64 := by omega
      rw [hkn]
      cases c
      · exact (kcp_eq_amended _ hlt).1
      · exact (kcp_eq_amended _ hlt).2
  unfold kingSafetyOf kingSafetyAmended
  cases endgameKing
  · simp only [Bool.false_eq_true, if_false, hk]
    by_cases h3 : bd.castling &&& 3 = 0 <;>
      by_cases h12 : bd.castling &&& 12 = 0 <;>
      simp [h3, h12]
  · rfl

/-- C7 counterexample: on `c7Board` (White king on e8, both castling
rights gone, phase 10) the code's king-safety term is −10 — it penalises
the White king for standing next to Black's home rank — while the spec
wording (penalty only near the king's OWN home rank) gives 0. -/
theorem c7_counterexample :
    kingSafetyOf c7Board (decide (phaseOf c7Board ≤ 8)) = -10 ∧
    kingSafetySpec c7Board (decide (phaseOf c7Board ≤ 8)) = 0 := by
  constructor <;> decide

/-! ### C8: evaluate negamax symmetry -/

/-- C8 (confirmed): `evaluate` negates exactly under a side-to-move flip
with all other state unchanged: its White-perspective core `scoreWhiteOf`
reads only the piece array, the castling mask and clones with a forced
side to move, never the incoming `stm`. -/
theorem c8_evaluate_negation_symmetry (bd : Board) :
    evaluate bd = -evaluate { bd with stm := other bd.stm } := by
  have h : ∀ c, scoreWhiteOf { bd with stm := c } = scoreWhiteOf bd := fun _ => rfl
  unfold evaluate
  cases hc : bd.stm <;> simp [hc, other, h]

/-! ### C10: transposition-table narrowing -/

theorem wrap8_clamp (x : Int) :
    wrap8 (clampI x 0 127) = clampI x 0 127 ∧
    0 ≤ clampI x 0 127 ∧ clampI x 0 127 ≤ 127 := by
  have hy0 : (0 : Int) ≤ clampI x 0 127 := le_max_left _ _
  have hy1 : clampI x 0 127 ≤ 127 := max_le (by norm_num) (min_le_right _ _)
  refine ⟨?_, hy0, hy1⟩
  unfold wrap8
  omega

theorem wrap16_clamp (x : Int) :
    wrap16 (clampI x (-32767) 32767) = clampI x (-32767) 32767 ∧
    -32767 ≤ clampI x (-32767) 32767 ∧ clampI x (-32767) 32767 ≤ 32767 := by
  have hy0 : (-32767 : Int) ≤ clampI x (-32767) 32767 := le_max_left _ _
  have hy1 : clampI x (-32767) 32767 ≤ 32767 :=
    max_le (by norm_num) (min_le_right _ _)
  refine ⟨?_, hy0, hy1⟩
  unfold wrap16
  omega

/-- C10 (confirmed): every entry `store` writes carries a depth clamped to
[0,127] and a score clamped to [−32767, 32767], on which the int8/int16
narrowings (`wrap8`/`wrap16`) are the identity — the narrowing never
wraps; and a mate-magnitude score MATE − ply (≥ 32767) is stored as
32767, its negation as −32767. -/
theorem c10_store_clamped :
    (∀ (tt : TranspositionTable) (key : Nat) (depth score : Int)
        (flag : TTFlag) (best : Move),
      ∀ e ∈ (tt.store key depth score flag best).table,
        e ∈ tt.table ∨
          (e.depth = wrap8 (clampI depth 0 127) ∧ e.depth = clampI depth 0 127 ∧
           0 ≤ e.depth ∧ e.depth ≤ 127 ∧
           e.score = wrap16 (clampI score (-32767) 32767) ∧
           e.score = clampI score (-32767) 32767 ∧
           -32767 ≤ e.score ∧ e.score ≤ 32767)) ∧
    (∀ ply : Int, 32767 ≤ MATE - ply →
        clampI (MATE - ply) (-32767) 32767 = 32767 ∧
        clampI (-(MATE - ply)) (-32767) 32767 = -32767) := by
  constructor
  · intro tt key depth score flag best e he
    simp only [TranspositionTable.store] at he
    by_cases h1 : tt.table.isEmpty
    · rw [if_pos h1] at he
      exact Or.inl he
    · rw [if_neg h1] at he
      by_cases h2 : (tt.table.getD (key &&& tt.mask) {}).key = 0 ∨
          (tt.table.getD (key &&& tt.mask) {}).key = key ∨
          depth ≥ (tt.table.getD (key &&& tt.mask) {}).depth
      · rw [if_pos h2] at he
        rcases List.mem_or_eq_of_mem_set he with h | h
        · exact Or.inl h
        · subst h
          right
          refine ⟨rfl, (wrap8_clamp depth).1, ?_, ?_, rfl, (wrap16_clamp score).1, ?_, ?_⟩
          · show 0 ≤ wrap8 (clampI depth 0 127)
            rw [(wrap8_clamp depth).1]; exact (wrap8_clamp depth).2.1
          · show wrap8 (clampI depth 0 127) ≤ 127
            rw [(wrap8_clamp depth).1]; exact (wrap8_clamp depth).2.2
          · show -32767 ≤ wrap16 (clampI score (-32767) 32767)
            rw [(wrap16_clamp score).1]; exact (wrap16_clamp score).2.1
          · show wrap16 (clampI score (-32767) 32767) ≤ 32767
            rw [(wrap16_clamp score).1]; exact (wrap16_clamp score).2.2
      · rw [if_neg h2] at he
        exact Or.inl he
  · intro ply hp
    unfold clampI
    constructor
    · rw [min_eq_right hp]; exact max_eq_right (by norm_num)
    · rw [min_eq_left (by omega : -(MATE - ply) ≤ 32767)]
      exact max_eq_left (by omega)

/-- Witness for C10 at a concrete store: a one-slot table, depth 200 and
score MATE − 3 are written as depth 127 and score 32767. -/
theorem c10_witness :
    ((TranspositionTable.store { table := [{}], mask := 0 } 5 200 (MATE - 3)
        TTFlag.exact {}).table.getD 0 {}).depth = 127 ∧
    ((TranspositionTable.store { table := [{}], mask := 0 } 5 200 (MATE - 3)
        TTFlag.exact {}).table.getD 0 {}).score = 32767 := by
  have h := c10_store_clamped
  have hmem : ((TranspositionTable.store { table := [{}], mask := 0 } 5 200 (MATE - 3)
      TTFlag.exact {}).table.getD 0 {}) ∈
      (TranspositionTable.store { table := [{}], mask := 0 } 5 200 (MATE - 3)
        TTFlag.exact {}).table := by decide
  have h2 := (h.1 { table := [{}], mask := 0 } 5 200 (MATE - 3) TTFlag.exact {} _
    hmem).resolve_left (by decide)
  constructor
  · rw [h2.2.1]; decide
  · rw [h2.2.2.2.2.2.1]
    exact (h.2 3 (by decide)).1

/-! ### C9: draw returns at negamax nodes and insufficient material -/

theorem filter_length_split {α : Type} (p q1 q2 : α → Bool)
    (h : ∀ x, p x = (q1 x || q2 x)) (hx : ∀ x, ¬(q1 x = true ∧ q2 x = true)) :
    ∀ l : List α,
      (l.filter p).length = (l.filter q1).length + (l.filter q2).length := by
  intro l
  induction l with
  | nil => simp
  | cons a t ih =>
    have ha := h a
    have hxa := hx a
    by_cases h1 : q1 a = true <;> by_cases h2 : q2 a = true
    · exact absurd ⟨h1, h2⟩ hxa
    · have hb2 : q2 a = false := by revert h2; cases q2 a <;> simp
      have hp : p a = true := by rw [ha, h1, hb2]; rfl
      simp [List.filter_cons, hp, h1, hb2, ih]
      omega
    · have hb1 : q1 a = false := by revert h1; cases q1 a <;> simp
      have hp : p a = true := by rw [ha, hb1, h2]; rfl
      simp [List.filter_cons, hp, hb1, h2, ih]
      omega
    · have hb1 : q1 a = false := by revert h1; cases q1 a <;> simp
      have hb2 : q2 a = false := by revert h2; cases q2 a <;> simp
      have hp : p a = false := by rw [ha, hb1, hb2]; rfl
      simp [List.filter_cons, hp, hb1, hb2, ih]

theorem countB_congr (bd : Board) (p q : Piece → Bool)
    (h : ∀ x, p x = q x) : countB bd p = countB bd q := by
  unfold countB
  congr 1
  exact List.filter_congr (fun i _ => h (bd.b i))

theorem countB_split (bd : Board) (p q1 q2 : Piece → Bool)
    (h : ∀ x, p x = (q1 x || q2 x)) (hx : ∀ x, ¬(q1 x = true ∧ q2 x = true)) :
    countB bd p = countB bd q1 + countB bd q2 := by
  unfold countB
  exact filter_length_split _ _ _
    (fun i => h (bd.b i)) (fun i => hx (bd.b i)) (List.range 64)

theorem counted_other_split (bd : Board) (c : Color) :
    countB bd (fun p => countedPiece p && otherPiece p && decide (p.c = c)) =
      countPieces bd c PieceType.pawn + countPieces bd c PieceType.rook +
        countPieces bd c PieceType.queen := by
  have h1 := countB_split bd
    (fun p => countedPiece p && otherPiece p && decide (p.c = c))
    (fun p => decide (p.t = PieceType.pawn ∧ p.c = c))
    (fun p => (decide (p.t = PieceType.rook ∧ p.c = c)) ||
      (decide (p.t = PieceType.queen ∧ p.c = c)))
    (by rintro ⟨t, pc⟩; cases t <;> cases pc <;> cases c <;> rfl)
    (by rintro ⟨t, pc⟩ ⟨ha, hb⟩; cases t <;> cases pc <;> cases c <;>
      simp_all)
  have h2 := countB_split bd
    (fun p => (decide (p.t = PieceType.rook ∧ p.c = c)) ||
      (decide (p.t = PieceType.queen ∧ p.c = c)))
    (fun p => decide (p.t = PieceType.rook ∧ p.c = c))
    (fun p => decide (p.t = PieceType.queen ∧ p.c = c))
    (fun _ => rfl)
    (by rintro ⟨t, pc⟩ ⟨ha, hb⟩; cases t <;> cases pc <;> cases c <;>
      simp_all)
  unfold countPieces
  omega

theorem counted_minor_split (bd : Board) (c : Color) :
    countB bd (fun p => countedPiece p && !otherPiece p && decide (p.c = c)) =
      countPieces bd c PieceType.bishop + countPieces bd c PieceType.knight := by
  have h1 := countB_split bd
    (fun p => countedPiece p && !otherPiece p && decide (p.c = c))
    (fun p => decide (p.t = PieceType.bishop ∧ p.c = c))
    (fun p => decide (p.t = PieceType.knight ∧ p.c = c))
    (by rintro ⟨t, pc⟩; cases t <;> cases pc <;> cases c <;> rfl)
    (by rintro ⟨t, pc⟩ ⟨ha, hb⟩; cases t <;> cases pc <;> cases c <;>
      simp_all)
  unfold countPieces
  omega

theorem counted_exact_bishop (bd : Board) (c : Color) :
    countB bd (fun p => countedPiece p && !otherPiece p && decide (p.c = c) &&
        decide (p.t = PieceType.bishop)) = countPieces bd c PieceType.bishop := by
  unfold countPieces
  exact countB_congr bd _ _
    (by rintro ⟨t, pc⟩; cases t <;> cases pc <;> cases c <;> rfl)

theorem counted_exact_knight (bd : Board) (c : Color) :
    countB bd (fun p => countedPiece p && !otherPiece p && decide (p.c = c) &&
        decide (p.t = PieceType.knight)) = countPieces bd c PieceType.knight := by
  unfold countPieces
  exact countB_congr bd _ _
    (by rintro ⟨t, pc⟩; cases t <;> cases pc <;> cases c <;> rfl)

theorem insufficient_iff (bd : Board) :
    bd.insufficientMaterial = true ↔ insufficientMaterialSpec bd := by
  unfold Board.insufficientMaterial
  simp only [counted_other_split, counted_minor_split, counted_exact_bishop,
    counted_exact_knight, insufficientMaterialSpec]
  split_ifs with h1 h2 h3 h4 h5 <;> simp <;> omega

theorem negamax_draw_zero (fuel : Nat) (bd : Board) (ctx : SearchContext)
    (depth alpha beta ply : Int) (hstop : ctx.stop = false)
    (hdraw : bd.insufficientMaterial = true ∨ 100 ≤ bd.halfmoveClock ∨
      2 ≤ (ctx.repetition.filter (fun h => decide (h = bd.hash))).length) :
    (negamax (fuel + 1) bd ctx depth alpha beta ply).1 = 0 := by
  simp only [negamax, timeUp, hstop]
  by_cases hi : bd.insufficientMaterial = true
  · simp [hi]
  · have hdraw' := (hdraw.resolve_left hi)
    by_cases hh : (100 : Int) ≤ bd.halfmoveClock
    · simp [hi, hh]
    · have hrep := hdraw'.resolve_left hh
      simp [hi, hh, hrep]

/-- C9 (confirmed): with time remaining (stop flag clear), a negamax node
returns 0 whenever the position has insufficient material, or the
halfmove clock is at least 100, or the position's hash occurs at least
twice in the repetition stack; and `insufficientMaterial` holds exactly
as the spec words it (kings aside no pawn/rook/queen on either side, and
bare-vs-bare, a single minor versus none, or one bishop each). -/
theorem c9_draw_returns_and_insufficient_material :
    (∀ (fuel : Nat) (bd : Board) (ctx : SearchContext)
        (depth alpha beta ply : Int), ctx.stop = false →
      (bd.insufficientMaterial = true ∨ 100 ≤ bd.halfmoveClock ∨
        2 ≤ (ctx.repetition.filter (fun h => decide (h = bd.hash))).length) →
      (negamax (fuel + 1) bd ctx depth alpha beta ply).1 = 0) ∧
    (∀ bd : Board, bd.insufficientMaterial = true ↔ insufficientMaterialSpec bd) :=
  ⟨fun fuel bd ctx depth alpha beta ply hstop hdraw =>
    negamax_draw_zero fuel bd ctx depth alpha beta ply hstop hdraw,
   fun bd => insufficient_iff bd⟩

/-- Witness for C9: on the bare-kings board a negamax node returns 0, and
the board satisfies both the code's test and the spec's wording. -/
theorem c9_witness :
    (negamax 1 kkBoard {} 3 (-INF) INF 0).1 = 0 ∧
    insufficientMaterialSpec kkBoard := by
  constructor
  · exact c9_draw_returns_and_insufficient_material.1 0 kkBoard {} 3 (-INF) INF 0
      rfl (Or.inl (by decide))
  · exact (c9_draw_returns_and_insufficient_material.2 kkBoard).mp (by decide)

/-! ### Make/undo machinery (C1, C2, C4)

Board updates are point updates of the square function; the lemmas below
compute the piece array of `applyMove` for each move kind and show that
`undoMove` reverses it exactly on well-formed moves. -/

theorem setSq_same (b : Nat → Piece) (i : Nat) (p : Piece) :
    setSq b i p i = p := by
  simp [setSq]

theorem setSq_other (b : Nat → Piece) (i : Nat) (p : Piece) {j : Nat}
    (h : j ≠ i) : setSq b i p j = b j := by
  simp [setSq, h]

theorem other_other (c : Color) : other (other c) = c := by
  cases c <;> rfl

theorem Board.eqOf (a b : Board) (h1 : a.b = b.b) (h2 : a.stm = b.stm)
    (h3 : a.epSquare = b.epSquare) (h4 : a.castling = b.castling)
    (h5 : a.halfmoveClock = b.halfmoveClock) (h6 : a.hash = b.hash)
    (h7 : a.z = b.z) : a = b := by
  cases a; cases b; simp_all

theorem applyMove_stm (bd : Board) (m : Move) :
    (applyMove bd m).stm = other bd.stm := rfl

theorem applyMove_z (bd : Board) (m : Move) : (applyMove bd m).z = bd.z := rfl

theorem applyMove_b_std (bd : Board) (m : Move) (hep : m.isEnPassant = false)
    (hcas : m.isCastle = false) (hpr : m.promo = PieceType.none) :
    (applyMove bd m).b = setSq (setSq bd.b m.toSq (bd.b m.fromSq)) m.fromSq {} := by
  simp [applyMove, hep, hcas, hpr]

theorem applyMove_b_promo (bd : Board) (m : Move) (hep : m.isEnPassant = false)
    (hcas : m.isCastle = false) (hpr : m.promo ≠ PieceType.none)
    (hft : m.toSq ≠ m.fromSq) :
    (applyMove bd m).b =
      setSq (setSq (setSq bd.b m.toSq (bd.b m.fromSq)) m.fromSq {}) m.toSq
        { t := m.promo, c := (bd.b m.fromSq).c } := by
  simp [applyMove, hep, hcas, hpr, setSq_same,
    setSq_other _ _ _ hft]

theorem applyMove_b_ep (bd : Board) (m : Move) (hep : m.isEnPassant = true)
    (hcas : m.isCastle = false) (hpr : m.promo = PieceType.none)
    (hcf : epCapSq (bd.b m.fromSq).c m.toSq ≠ m.fromSq) :
    (applyMove bd m).b =
      setSq (setSq (setSq bd.b (epCapSq (bd.b m.fromSq).c m.toSq) {}) m.toSq
        (bd.b m.fromSq)) m.fromSq {} := by
  have h1 : setSq bd.b (epCapSq (bd.b m.fromSq).c m.toSq) {} m.fromSq =
      bd.b m.fromSq := setSq_other _ _ _ (Ne.symm hcf)
  simp [applyMove, hep, hcas, hpr, h1]

theorem applyMove_b_castle_wk (bd : Board) (m : Move) (hep : m.isEnPassant = false)
    (hcas : m.isCastle = true) (hpr : m.promo = PieceType.none)
    (hcol : (bd.b m.fromSq).c = Color.white) (hF : m.fromSq = 4)
    (hT : m.toSq = 6) :
    (applyMove bd m).b =
      setSq (setSq (setSq (setSq bd.b 6 (bd.b 4)) 4 {}) 5 (bd.b 7)) 7 {} := by
  have hc : (bd.b 4).c = Color.white := by rw [← hF]; exact hcol
  funext j
  simp [applyMove, hep, hcas, hpr, hc, hF, hT, setSq]

theorem applyMove_b_castle_wq (bd : Board) (m : Move) (hep : m.isEnPassant = false)
    (hcas : m.isCastle = true) (hpr : m.promo = PieceType.none)
    (hcol : (bd.b m.fromSq).c = Color.white) (hF : m.fromSq = 4)
    (hT : m.toSq = 2) :
    (applyMove bd m).b =
      setSq (setSq (setSq (setSq bd.b 2 (bd.b 4)) 4 {}) 3 (bd.b 0)) 0 {} := by
  have hc : (bd.b 4).c = Color.white := by rw [← hF]; exact hcol
  funext j
  simp [applyMove, hep, hcas, hpr, hc, hF, hT, setSq]

theorem applyMove_b_castle_bk (bd : Board) (m : Move) (hep : m.isEnPassant = false)
    (hcas : m.isCastle = true) (hpr : m.promo = PieceType.none)
    (hcol : (bd.b m.fromSq).c = Color.black) (hF : m.fromSq = 60)
    (hT : m.toSq = 62) :
    (applyMove bd m).b =
      setSq (setSq (setSq (setSq bd.b 62 (bd.b 60)) 60 {}) 61 (bd.b 63)) 63 {} := by
  have hc : (bd.b 60).c = Color.black := by rw [← hF]; exact hcol
  funext j
  simp [applyMove, hep, hcas, hpr, hc, hF, hT, setSq]

theorem applyMove_b_castle_bq (bd : Board) (m : Move) (hep : m.isEnPassant = false)
    (hcas : m.isCastle = true) (hpr : m.promo = PieceType.none)
    (hcol : (bd.b m.fromSq).c = Color.black) (hF : m.fromSq = 60)
    (hT : m.toSq = 58) :
    (applyMove bd m).b =
      setSq (setSq (setSq (setSq bd.b 58 (bd.b 60)) 60 {}) 59 (bd.b 56)) 56 {} := by
  have hc : (bd.b 60).c = Color.black := by rw [← hF]; exact hcol
  funext j
  simp [applyMove, hep, hcas, hpr, hc, hF, hT, setSq]

theorem undoMove_b_std (s : Board) (u : Undo) (hep : u.m.isEnPassant = false)
    (hcas : u.m.isCastle = false) (hpr : u.m.promo = PieceType.none)
    (hcap : u.m.isCapture = false) :
    (s.undoMove u).b = setSq (setSq s.b u.m.fromSq (s.b u.m.toSq)) u.m.toSq {} := by
  simp [Board.undoMove, hep, hcas, hpr, hcap]

theorem undoMove_b_cap (s : Board) (u : Undo) (hep : u.m.isEnPassant = false)
    (hcas : u.m.isCastle = false) (hpr : u.m.promo = PieceType.none)
    (hcap : u.m.isCapture = true) :
    (s.undoMove u).b =
      setSq (setSq (setSq s.b u.m.fromSq (s.b u.m.toSq)) u.m.toSq {})
        u.m.toSq u.captured := by
  simp [Board.undoMove, hep, hcas, hpr, hcap]

theorem undoMove_b_promo (s : Board) (u : Undo) (hep : u.m.isEnPassant = false)
    (hcas : u.m.isCastle = false) (hpr : u.m.promo ≠ PieceType.none)
    (hcap : u.m.isCapture = false) :
    (s.undoMove u).b =
      setSq (setSq (setSq s.b u.m.fromSq (s.b u.m.toSq)) u.m.toSq {})
        u.m.fromSq (Piece.mk PieceType.pawn
          (((setSq (setSq s.b u.m.fromSq (s.b u.m.toSq)) u.m.toSq {})
            u.m.fromSq).c)) := by
  simp [Board.undoMove, hep, hcas, hpr, hcap]

theorem undoMove_b_promo_cap (s : Board) (u : Undo) (hep : u.m.isEnPassant = false)
    (hcas : u.m.isCastle = false) (hpr : u.m.promo ≠ PieceType.none)
    (hcap : u.m.isCapture = true) :
    (s.undoMove u).b =
      setSq (setSq (setSq (setSq s.b u.m.fromSq (s.b u.m.toSq)) u.m.toSq {})
        u.m.fromSq (Piece.mk PieceType.pawn
          (((setSq (setSq s.b u.m.fromSq (s.b u.m.toSq)) u.m.toSq {})
            u.m.fromSq).c))) u.m.toSq u.captured := by
  simp [Board.undoMove, hep, hcas, hpr, hcap]

theorem undoMove_b_ep (s : Board) (u : Undo) (hep : u.m.isEnPassant = true)
    (hcas : u.m.isCastle = false) (hpr : u.m.promo = PieceType.none) :
    (s.undoMove u).b =
      setSq (setSq (setSq s.b u.m.fromSq (s.b u.m.toSq)) u.m.toSq {})
        (epCapSq (((setSq (setSq s.b u.m.fromSq (s.b u.m.toSq)) u.m.toSq {})
          u.m.fromSq).c) u.m.toSq) u.captured := by
  simp [Board.undoMove, hep, hcas, hpr]

theorem undoMove_b_castle (s : Board) (u : Undo) (hcas : u.m.isCastle = true)
    (hep : u.m.isEnPassant = false) (hpr : u.m.promo = PieceType.none)
    (hcap : u.m.isCapture = false)
    (RF RT : Nat)
    (hshift : (if (s.b u.m.toSq).c = Color.white then
        if u.m.toSq = 6 then setSq (setSq s.b 7 (s.b 5)) 5 ({} : Piece)
        else if u.m.toSq = 2 then setSq (setSq s.b 0 (s.b 3)) 3 ({} : Piece)
        else s.b
      else
        if u.m.toSq = 62 then setSq (setSq s.b 63 (s.b 61)) 61 ({} : Piece)
        else if u.m.toSq = 58 then setSq (setSq s.b 56 (s.b 59)) 59 ({} : Piece)
        else s.b) = setSq (setSq s.b RF (s.b RT)) RT ({} : Piece)) :
    (s.undoMove u).b =
      setSq (setSq (setSq (setSq s.b RF (s.b RT)) RT {}) u.m.fromSq
        ((setSq (setSq s.b RF (s.b RT)) RT {}) u.m.toSq)) u.m.toSq {} := by
  simp only [Board.undoMove, hep, hcas, hpr, hcap, if_true, ite_true,
    Bool.false_eq_true, if_false, ite_false, ne_eq, not_true_eq_false,
    not_false_eq_true]
  rw [hshift]

theorem mkUndo_m (bd : Board) (m : Move) : (mkUndo bd m).m = m := rfl

theorem mkUndo_captured (bd : Board) (m : Move) :
    (mkUndo bd m).captured = capturedOf bd m := rfl

/-- Undo exactness: on a well-formed move, `undoMove` with the undo record
of `makeMove` maps any state whose piece array and side to move are those
of `applyMove` (the hash may be anything — it is restored from the record)
back to the original board, bit for bit. This single lemma covers both the
success path of makeMove (undo called by genLegalMoves or the caller) and
its legality-failure path (undo called internally). -/
theorem undo_applyMove (bd : Board) (m : Move) (hwf : MoveWF bd m)
    (s : Board) (hb : s.b = (applyMove bd m).b) (hstm : s.stm = other bd.stm)
    (hz : s.z = bd.z) :
    s.undoMove (mkUndo bd m) = bd := by
  simp only [MoveWF] at hwf
  obtain ⟨hne, hcol, hF64, hT64, hFT, hpp, hkind, hcastle, hdbl⟩ := hwf
  refine Board.eqOf _ _ ?_ ?_ rfl rfl rfl rfl hz
  case refine_2 => show other s.stm = bd.stm; rw [hstm, other_other]
  show (Board.undoMove s (mkUndo bd m)).b = bd.b
  by_cases hep : m.isEnPassant = true
  · -- en passant
    rw [if_pos hep] at hkind
    obtain ⟨hpt, hcapT, hprn, hcasF, hepsq, hbT, hc64, hcF, hcT, hcp, hcc⟩ := hkind
    rw [undoMove_b_ep s (mkUndo bd m) hep hcasF hprn]
    simp only [mkUndo_m, mkUndo_captured]
    have hD : ((setSq (setSq s.b m.fromSq (s.b m.toSq)) m.toSq {}) m.fromSq) =
        bd.b m.fromSq := by
      rw [hb, applyMove_b_ep bd m hep hcasF hprn hcF]
      simp [setSq, hFT, Ne.symm hFT]
    rw [hD]
    have hcapv : capturedOf bd m = bd.b (epCapSq (bd.b m.fromSq).c m.toSq) := by
      simp [capturedOf, hep]
    rw [hcapv, hb, applyMove_b_ep bd m hep hcasF hprn hcF]
    funext j
    by_cases h1 : j = epCapSq (bd.b m.fromSq).c m.toSq
    · subst h1; simp [setSq]
    · by_cases h2 : j = m.toSq
      · subst h2; simp [setSq, h1, hbT, Ne.symm hcT]
      · by_cases h3 : j = m.fromSq
        · subst h3; simp [setSq, h1, h2, Ne.symm hFT, hFT, Ne.symm hcF]
        · simp [setSq, h1, h2, h3]
  · have hepF : m.isEnPassant = false := by revert hep; cases m.isEnPassant <;> simp
    rw [if_neg hep] at hkind
    by_cases hcas : m.isCastle = true
    · -- castling
      rw [if_pos hcas] at hcastle
      obtain ⟨hprn, hcapF, hepF2, hkt, hside⟩ := hcastle
      rcases hside with ⟨hcw, hF4, hsub⟩ | ⟨hcb, hF60, hsub⟩
      · rcases hsub with ⟨hT, hr7, hs5, hs6⟩ | ⟨hT, hr0, hs1, hs2, hs3⟩
        · -- white king side
          rw [undoMove_b_castle s (mkUndo bd m) hcas hepF hprn hcapF 7 5 ?_]
          · simp only [mkUndo_m]
            rw [hb, applyMove_b_castle_wk bd m hepF hcas hprn hcw hF4 hT]
            simp only [hF4, hT]
            funext j
            by_cases h1 : j = 4
            · subst h1; simp [setSq]
            · by_cases h2 : j = 6
              · subst h2; simp [setSq, hs6]
              · by_cases h3 : j = 5
                · subst h3; simp [setSq, hs5]
                · by_cases h4 : j = 7
                  · subst h4; simp [setSq, hr7]
                  · simp [setSq, h1, h2, h3, h4]
          · simp only [mkUndo_m]
            rw [hb, applyMove_b_castle_wk bd m hepF hcas hprn hcw hF4 hT]
            simp only [hT]
            have hm6 : ((setSq (setSq (setSq (setSq bd.b 6 (bd.b 4)) 4 {}) 5
                (bd.b 7)) 7 {}) 6).c = Color.white := by
              simp [setSq]
              exact hF4 ▸ hcw
            rw [if_pos hm6]
            simp
        · -- white queen side
          rw [undoMove_b_castle s (mkUndo bd m) hcas hepF hprn hcapF 0 3 ?_]
          · simp only [mkUndo_m]
            rw [hb, applyMove_b_castle_wq bd m hepF hcas hprn hcw hF4 hT]
            simp only [hF4, hT]
            funext j
            by_cases h1 : j = 4
            · subst h1; simp [setSq]
            · by_cases h2 : j = 2
              · subst h2; simp [setSq, hs2]
              · by_cases h3 : j = 3
                · subst h3; simp [setSq, hs3]
                · by_cases h4 : j = 0
                  · subst h4; simp [setSq, hr0]
                  · simp [setSq, h1, h2, h3, h4]
          · simp only [mkUndo_m]
            rw [hb, applyMove_b_castle_wq bd m hepF hcas hprn hcw hF4 hT]
            simp only [hT]
            have hm2 : ((setSq (setSq (setSq (setSq bd.b 2 (bd.b 4)) 4 {}) 3
                (bd.b 0)) 0 {}) 2).c = Color.white := by
              simp [setSq]
              exact hF4 ▸ hcw
            rw [if_pos hm2]
            simp
      · rcases hsub with ⟨hT, hr63, hs61, hs62⟩ | ⟨hT, hr56, hs57, hs58, hs59⟩
        · -- black king side
          rw [undoMove_b_castle s (mkUndo bd m) hcas hepF hprn hcapF 63 61 ?_]
          · simp only [mkUndo_m]
            rw [hb, applyMove_b_castle_bk bd m hepF hcas hprn hcb hF60 hT]
            simp only [hF60, hT]
            funext j
            by_cases h1 : j = 60
            · subst h1; simp [setSq]
            · by_cases h2 : j = 62
              · subst h2; simp [setSq, hs62]
              · by_cases h3 : j = 61
                · subst h3; simp [setSq, hs61]
                · by_cases h4 : j = 63
                  · subst h4; simp [setSq, hr63]
                  · simp [setSq, h1, h2, h3, h4]
          · simp only [mkUndo_m]
            rw [hb, applyMove_b_castle_bk bd m hepF hcas hprn hcb hF60 hT]
            simp only [hT]
            have hm62 : ((setSq (setSq (setSq (setSq bd.b 62 (bd.b 60)) 60 {}) 61
                (bd.b 63)) 63 {}) 62).c = Color.black := by
              simp [setSq]
              exact hF60 ▸ hcb
            rw [if_neg (by rw [hm62]; simp)]
            simp
        · -- black queen side
          rw [undoMove_b_castle s (mkUndo bd m) hcas hepF hprn hcapF 56 59 ?_]
          · simp only [mkUndo_m]
            rw [hb, applyMove_b_castle_bq bd m hepF hcas hprn hcb hF60 hT]
            simp only [hF60, hT]
            funext j
            by_cases h1 : j = 60
            · subst h1; simp [setSq]
            · by_cases h2 : j = 58
              · subst h2; simp [setSq, hs58]
              · by_cases h3 : j = 59
                · subst h3; simp [setSq, hs59]
                · by_cases h4 : j = 56
                  · subst h4; simp [setSq, hr56]
                  · simp [setSq, h1, h2, h3, h4]
          · simp only [mkUndo_m]
            rw [hb, applyMove_b_castle_bq bd m hepF hcas hprn hcb hF60 hT]
            simp only [hT]
            have hm58 : ((setSq (setSq (setSq (setSq bd.b 58 (bd.b 60)) 60 {}) 59
                (bd.b 56)) 56 {}) 58).c = Color.black := by
              simp [setSq]
              exact hF60 ▸ hcb
            rw [if_neg (by rw [hm58]; simp)]
            simp
    · -- ordinary move (quiet or capture, with or without promotion)
      have hcasF : m.isCastle = false := by revert hcas; cases m.isCastle <;> simp
      by_cases hcap : m.isCapture = true
      · rw [if_pos hcap] at hkind
        obtain ⟨hTne, hTcol, _⟩ := hkind
        have hcapv : capturedOf bd m = bd.b m.toSq := by
          simp [capturedOf, hepF, hcap]
        by_cases hpr : m.promo = PieceType.none
        · rw [undoMove_b_cap s (mkUndo bd m) hepF hcasF hpr hcap]
          simp only [mkUndo_m, mkUndo_captured]
          rw [hcapv, hb, applyMove_b_std bd m hepF hcasF hpr]
          funext j
          by_cases h1 : j = m.toSq
          · subst h1; simp [setSq]
          · by_cases h2 : j = m.fromSq
            · subst h2; simp [setSq, h1, Ne.symm hFT, hFT]
            · simp [setSq, h1, h2]
        · have hpawn : (bd.b m.fromSq).t = PieceType.pawn := hpp hpr
          rw [undoMove_b_promo_cap s (mkUndo bd m) hepF hcasF hpr hcap]
          simp only [mkUndo_m, mkUndo_captured]
          rw [hcapv, hb, applyMove_b_promo bd m hepF hcasF hpr (Ne.symm hFT)]
          funext j
          by_cases h1 : j = m.toSq
          · subst h1; simp [setSq]
          · by_cases h2 : j = m.fromSq
            · subst h2
              simp [setSq, h1, Ne.symm hFT, hFT]
              cases hq : bd.b m.fromSq with
              | mk t c => rw [hq] at hpawn; simp_all
            · simp [setSq, h1, h2]
      · have hcapF : m.isCapture = false := by revert hcap; cases m.isCapture <;> simp
        rw [if_neg hcap] at hkind
        by_cases hpr : m.promo = PieceType.none
        · rw [undoMove_b_std s (mkUndo bd m) hepF hcasF hpr hcapF]
          simp only [mkUndo_m]
          rw [hb, applyMove_b_std bd m hepF hcasF hpr]
          funext j
          by_cases h1 : j = m.toSq
          · subst h1; simp [setSq, hkind, Ne.symm hFT]
          · by_cases h2 : j = m.fromSq
            · subst h2; simp [setSq, h1, Ne.symm hFT, hFT]
            · simp [setSq, h1, h2]
        · have hpawn : (bd.b m.fromSq).t = PieceType.pawn := hpp hpr
          rw [undoMove_b_promo s (mkUndo bd m) hepF hcasF hpr hcapF]
          simp only [mkUndo_m]
          rw [hb, applyMove_b_promo bd m hepF hcasF hpr (Ne.symm hFT)]
          funext j
          by_cases h1 : j = m.toSq
          · subst h1; simp [setSq, hkind, Ne.symm hFT]
          · by_cases h2 : j = m.fromSq
            · subst h2
              simp [setSq, h1, Ne.symm hFT, hFT]
              cases hq : bd.b m.fromSq with
              | mk t c => rw [hq] at hpawn; simp_all
            · simp [setSq, h1, h2]


/-! ### Soundness of the pseudo-move generator -/

theorem pieceEqOf (p : Piece) {t : PieceType} {c : Color} (ht : p.t = t)
    (hc : p.c = c) : p = ⟨t, c⟩ := by
  cases p; simp_all

theorem mem_foldr_append {α β : Type} (g : α → List β) (L : List α) (x : β) :
    x ∈ L.foldr (fun d acc => g d ++ acc) [] ↔ ∃ d, d ∈ L ∧ x ∈ g d := by
  induction L with
  | nil => simp
  | cons a as ih => simp [List.foldr, ih]

/-- A quiet (non-capture, non-special) move between distinct squares, from a
non-pawn piece of the side to move onto a canonically empty square, is
well-formed. -/
theorem wf_quiet (bd : Board) (i toSq : Nat)
    (hpt : (bd.b i).t ≠ PieceType.none) (hpc : (bd.b i).c = bd.stm)
    (hi : i < 64) (ht : toSq < 64) (hne : i ≠ toSq)
    (hnp : (bd.b i).t ≠ PieceType.pawn)
    (hempty : bd.b toSq = ({} : Piece)) :
    MoveWF bd (mkMove i toSq false false false PieceType.none) := by
  simp only [MoveWF, mkMove]
  simp only [Bool.false_eq_true, if_false]
  refine ⟨hpt, hpc, hi, ht, hne, ?_, hempty, trivial, ?_⟩
  · intro h; exact absurd rfl h
  · intro h; exact absurd h.1 hnp

/-- A plain capture between distinct squares, from a non-pawn piece of the
side to move onto an enemy piece, is well-formed. -/
theorem wf_capture (bd : Board) (i toSq : Nat)
    (hpt : (bd.b i).t ≠ PieceType.none) (hpc : (bd.b i).c = bd.stm)
    (hi : i < 64) (ht : toSq < 64) (hne : i ≠ toSq)
    (hnp : (bd.b i).t ≠ PieceType.pawn)
    (hvt : (bd.b toSq).t ≠ PieceType.none)
    (hvc : (bd.b toSq).c ≠ (bd.b i).c) :
    MoveWF bd (mkMove i toSq true false false PieceType.none) := by
  simp only [MoveWF, mkMove]
  simp only [Bool.false_eq_true, Bool.true_eq_false, if_false, if_true]
  refine ⟨hpt, hpc, hi, ht, hne, ?_, ⟨hvt, hvc, trivial⟩, trivial, ?_⟩
  · intro h; exact absurd rfl h
  · intro h; exact absurd h.1 hnp

/-- Every move emitted by one knight/king offset step is well-formed. -/
theorem stepGen_wf (bd : Board) (hok : BoardOK bd) (i : Nat) (hi : i < 64)
    (hpt : (bd.b i).t ≠ PieceType.none) (hpc : (bd.b i).c = bd.stm)
    (hnp : (bd.b i).t ≠ PieceType.pawn) (d : Int × Int)
    (hd : d.1 ≠ 0 ∨ d.2 ≠ 0) (m : Move)
    (hm : m ∈ stepGen bd i (bd.b i).c ((i : Int) / 8) ((i : Int) % 8) d) :
    MoveWF bd m := by
  simp only [stepGen] at hm
  split at hm
  · simp at hm
  · rename_i hbound
    split at hm
    · rename_i hempty
      simp only [List.mem_singleton] at hm
      subst hm
      exact wf_quiet bd i _ hpt hpc hi (by omega) (by omega) hnp (hok.1 _ hempty)
    · split at hm
      · rename_i hempty hcapc
        simp only [List.mem_singleton] at hm
        subst hm
        exact wf_capture bd i _ hpt hpc hi (by omega) (by omega) hnp hempty hcapc
      · simp at hm


/-- Every move emitted for a knight is well-formed. -/
theorem knightGen_wf (bd : Board) (hok : BoardOK bd) (i : Nat) (hi : i < 64)
    (hpc : (bd.b i).c = bd.stm) (hkn : (bd.b i).t = PieceType.knight)
    (m : Move)
    (hm : m ∈ knightGen bd i (bd.b i).c ((i : Int) / 8) ((i : Int) % 8)) :
    MoveWF bd m := by
  rw [knightGen, mem_foldr_append] at hm
  obtain ⟨d, hd, hmd⟩ := hm
  have hd0 : d.1 ≠ 0 ∨ d.2 ≠ 0 := by
    have h : ∀ x ∈ knightD, x.1 ≠ 0 ∨ x.2 ≠ 0 := by decide
    exact h d hd
  exact stepGen_wf bd hok i hi (by simp [hkn]) hpc (by simp [hkn]) d hd0 m hmd

/-- Every move emitted along one sliding ray is well-formed, given that the
current ray position is on the from-square's side of the direction. -/
theorem slideGen_wf (bd : Board) (hok : BoardOK bd) (i : Nat) (hi : i < 64)
    (hpt : (bd.b i).t ≠ PieceType.none) (hpc : (bd.b i).c = bd.stm)
    (hnp : (bd.b i).t ≠ PieceType.pawn) (df dr : Int)
    (hdir : df ≠ 0 ∨ dr ≠ 0) (fuel : Nat) (fc rc : Int)
    (hinv : (0 < df → (i : Int) % 8 ≤ fc) ∧ (df < 0 → fc ≤ (i : Int) % 8) ∧
      (df = 0 → fc = (i : Int) % 8) ∧ (0 < dr → (i : Int) / 8 ≤ rc) ∧
      (dr < 0 → rc ≤ (i : Int) / 8) ∧ (dr = 0 → rc = (i : Int) / 8))
    (m : Move) (hm : m ∈ slideGen bd i (bd.b i).c df dr fc rc fuel) :
    MoveWF bd m := by
  induction fuel generalizing fc rc with
  | zero => simp [slideGen] at hm
  | succ fuel ih =>
    simp only [slideGen] at hm
    split at hm
    · rename_i hbound
      split at hm
      · rename_i hempty
        rcases List.mem_cons.1 hm with rfl | hm2
        · exact wf_quiet bd i _ hpt hpc hi (by omega) (by omega) hnp (hok.1 _ hempty)
        · exact ih _ _ ⟨by omega, by omega, by omega, by omega, by omega, by omega⟩ hm2
      · split at hm
        · rename_i hempty hcapc
          simp only [List.mem_singleton] at hm
          subst hm
          exact wf_capture bd i _ hpt hpc hi (by omega) (by omega) hnp hempty hcapc
        · simp at hm
    · simp at hm

/-- Every move emitted for a bishop, rook or queen is well-formed. -/
theorem sliderGen_wf (bd : Board) (hok : BoardOK bd) (i : Nat) (hi : i < 64)
    (hpt : (bd.b i).t ≠ PieceType.none) (hpc : (bd.b i).c = bd.stm)
    (hnp : (bd.b i).t ≠ PieceType.pawn) (t : PieceType) (m : Move)
    (hm : m ∈ sliderGen bd i (bd.b i).c t ((i : Int) / 8) ((i : Int) % 8)) :
    MoveWF bd m := by
  have hinit : ∀ df dr : Int,
      (0 < df → (i : Int) % 8 ≤ (i : Int) % 8) ∧
      (df < 0 → (i : Int) % 8 ≤ (i : Int) % 8) ∧
      (df = 0 → (i : Int) % 8 = (i : Int) % 8) ∧
      (0 < dr → (i : Int) / 8 ≤ (i : Int) / 8) ∧
      (dr < 0 → (i : Int) / 8 ≤ (i : Int) / 8) ∧
      (dr = 0 → (i : Int) / 8 = (i : Int) / 8) :=
    fun _ _ => ⟨fun _ => le_rfl, fun _ => le_rfl, fun _ => rfl,
      fun _ => le_rfl, fun _ => le_rfl, fun _ => rfl⟩
  simp only [sliderGen] at hm
  rcases List.mem_append.1 hm with h | h
  · split at h
    · rcases List.mem_append.1 h with h | h
      · rcases List.mem_append.1 h with h | h
        · rcases List.mem_append.1 h with h | h
          · exact slideGen_wf bd hok i hi hpt hpc hnp 1 1 (by omega) 8 _ _ (hinit 1 1) m h
          · exact slideGen_wf bd hok i hi hpt hpc hnp 1 (-1) (by omega) 8 _ _ (hinit 1 (-1)) m h
        · exact slideGen_wf bd hok i hi hpt hpc hnp (-1) 1 (by omega) 8 _ _ (hinit (-1) 1) m h
      · exact slideGen_wf bd hok i hi hpt hpc hnp (-1) (-1) (by omega) 8 _ _ (hinit (-1) (-1)) m h
    · simp at h
  · split at h
    · rcases List.mem_append.1 h with h | h
      · rcases List.mem_append.1 h with h | h
        · rcases List.mem_append.1 h with h | h
          · exact slideGen_wf bd hok i hi hpt hpc hnp 1 0 (by omega) 8 _ _ (hinit 1 0) m h
          · exact slideGen_wf bd hok i hi hpt hpc hnp (-1) 0 (by omega) 8 _ _ (hinit (-1) 0) m h
        · exact slideGen_wf bd hok i hi hpt hpc hnp 0 1 (by omega) 8 _ _ (hinit 0 1) m h
      · exact slideGen_wf bd hok i hi hpt hpc hnp 0 (-1) (by omega) 8 _ _ (hinit 0 (-1)) m h
    · simp at h


/-- Membership in `if c then l else []` yields the condition and the
membership in `l`. -/
theorem mem_ite_nil {α : Type} {c : Prop} [Decidable c] {l : List α} {x : α}
    (h : x ∈ (if c then l else [])) : c ∧ x ∈ l := by
  split at h
  · exact ⟨by assumption, h⟩
  · simp at h

/-- Every move emitted for a king, including the four castling pushes, is
well-formed. -/
theorem kingGen_wf (bd : Board) (hok : BoardOK bd) (i : Nat) (hi : i < 64)
    (hpc : (bd.b i).c = bd.stm) (hkg : (bd.b i).t = PieceType.king) (m : Move)
    (hm : m ∈ kingGen bd i (bd.b i).c ((i : Int) / 8) ((i : Int) % 8)) :
    MoveWF bd m := by
  have hpt : (bd.b i).t ≠ PieceType.none := by simp [hkg]
  have hnp : (bd.b i).t ≠ PieceType.pawn := by simp [hkg]
  simp only [kingGen] at hm
  rcases List.mem_append.1 hm with h1 | h1
  · rw [mem_foldr_append] at h1
    obtain ⟨d, hd, hmd⟩ := h1
    have hd0 : d.1 ≠ 0 ∨ d.2 ≠ 0 := by
      have hh : ∀ x ∈ kingD, x.1 ≠ 0 ∨ x.2 ≠ 0 := by decide
      exact hh d hd
    exact stepGen_wf bd hok i hi hpt hpc hnp d hd0 m hmd
  · clear hm
    rcases List.mem_append.1 h1 with h2 | h2
    · clear h1
      obtain ⟨hw, h3⟩ := mem_ite_nil h2
      clear h2
      obtain ⟨hwc, hi4⟩ := hw
      subst hi4
      rcases List.mem_append.1 h3 with h4 | h4
      · obtain ⟨hg, h5⟩ := mem_ite_nil h4
        obtain ⟨-, h6⟩ := mem_ite_nil h5
        simp only [List.mem_singleton] at h6
        subst h6
        exact ⟨hpt, hpc, by decide, by decide, by decide, fun hq => absurd rfl hq,
          hok.1 _ hg.2.2.1,
          ⟨rfl, rfl, rfl, hkg, Or.inl ⟨hwc, rfl, Or.inl ⟨rfl,
            pieceEqOf _ hg.2.2.2.1 hg.2.2.2.2, hok.1 _ hg.2.1,
            hok.1 _ hg.2.2.1⟩⟩⟩,
          fun hq => absurd hq.1 hnp⟩
      · obtain ⟨hg, h5⟩ := mem_ite_nil h4
        obtain ⟨-, h6⟩ := mem_ite_nil h5
        simp only [List.mem_singleton] at h6
        subst h6
        exact ⟨hpt, hpc, by decide, by decide, by decide, fun hq => absurd rfl hq,
          hok.1 _ hg.2.2.1,
          ⟨rfl, rfl, rfl, hkg, Or.inl ⟨hwc, rfl, Or.inr ⟨rfl,
            pieceEqOf _ hg.2.2.2.2.1 hg.2.2.2.2.2, hok.1 _ hg.2.2.2.1,
            hok.1 _ hg.2.2.1, hok.1 _ hg.2.1⟩⟩⟩,
          fun hq => absurd hq.1 hnp⟩
    · clear h1
      obtain ⟨hb, h3⟩ := mem_ite_nil h2
      clear h2
      obtain ⟨hbc, hi60⟩ := hb
      subst hi60
      rcases List.mem_append.1 h3 with h4 | h4
      · obtain ⟨hg, h5⟩ := mem_ite_nil h4
        obtain ⟨-, h6⟩ := mem_ite_nil h5
        simp only [List.mem_singleton] at h6
        subst h6
        exact ⟨hpt, hpc, by decide, by decide, by decide, fun hq => absurd rfl hq,
          hok.1 _ hg.2.2.1,
          ⟨rfl, rfl, rfl, hkg, Or.inr ⟨hbc, rfl, Or.inl ⟨rfl,
            pieceEqOf _ hg.2.2.2.1 hg.2.2.2.2, hok.1 _ hg.2.1,
            hok.1 _ hg.2.2.1⟩⟩⟩,
          fun hq => absurd hq.1 hnp⟩
      · obtain ⟨hg, h5⟩ := mem_ite_nil h4
        obtain ⟨-, h6⟩ := mem_ite_nil h5
        simp only [List.mem_singleton] at h6
        subst h6
        exact ⟨hpt, hpc, by decide, by decide, by decide, fun hq => absurd rfl hq,
          hok.1 _ hg.2.2.1,
          ⟨rfl, rfl, rfl, hkg, Or.inr ⟨hbc, rfl, Or.inr ⟨rfl,
            pieceEqOf _ hg.2.2.2.2.1 hg.2.2.2.2.2, hok.1 _ hg.2.2.2.1,
            hok.1 _ hg.2.2.1, hok.1 _ hg.2.1⟩⟩⟩,
          fun hq => absurd hq.1 hnp⟩


/-- Every move emitted by the forward pawn block is well-formed. -/
theorem pawnFwdGen_wf (bd : Board) (hok : BoardOK bd) (i : Nat) (hi : i < 64)
    (hp : (bd.b i).t = PieceType.pawn) (hpc : (bd.b i).c = bd.stm)
    (dir startRank promoRank : Int) (hdirv : dir = 1 ∨ dir = -1) (m : Move)
    (hm : m ∈ pawnFwdGen bd i ((i : Int) / 8) ((i : Int) % 8) dir startRank promoRank) :
    MoveWF bd m := by
  have hpt : (bd.b i).t ≠ PieceType.none := by simp [hp]
  simp only [pawnFwdGen] at hm
  obtain ⟨hb, hm1⟩ := mem_ite_nil hm
  obtain ⟨hone, hm2⟩ := mem_ite_nil hm1
  by_cases hpr : ((i : Int) / 8 + dir) = promoRank
  · rw [if_pos hpr] at hm2
    simp only [List.mem_cons, List.not_mem_nil, or_false] at hm2
    have hlt : ((((i : Int) / 8 + dir) * 8 + (i : Int) % 8).toNat) < 64 := by omega
    have hne : i ≠ ((((i : Int) / 8 + dir) * 8 + (i : Int) % 8).toNat) := by omega
    have hemp : bd.b ((((i : Int) / 8 + dir) * 8 + (i : Int) % 8).toNat) = ({} : Piece) :=
      hok.1 _ hone
    rcases hm2 with rfl | rfl | rfl | rfl <;>
      exact ⟨hpt, hpc, hi, hlt, hne, fun _ => hp, hemp, trivial,
        fun hq => absurd hq.2 (by simp only [mkMove]; omega)⟩
  · rw [if_neg hpr] at hm2
    rcases List.mem_cons.1 hm2 with rfl | hm3
    · have hlt : ((((i : Int) / 8 + dir) * 8 + (i : Int) % 8).toNat) < 64 := by omega
      have hne : i ≠ ((((i : Int) / 8 + dir) * 8 + (i : Int) % 8).toNat) := by omega
      exact ⟨hpt, hpc, hi, hlt, hne, fun hq => absurd rfl hq,
        hok.1 _ hone, trivial,
        fun hq => absurd hq.2 (by simp only [mkMove]; omega)⟩
    · obtain ⟨hstart, hm4⟩ := mem_ite_nil hm3
      obtain ⟨h2c, hm5⟩ := mem_ite_nil hm4
      simp only [List.mem_singleton] at hm5
      subst hm5
      have hlt : ((((i : Int) / 8 + 2 * dir) * 8 + (i : Int) % 8).toNat) < 64 := by omega
      have hne : i ≠ ((((i : Int) / 8 + 2 * dir) * 8 + (i : Int) % 8).toNat) := by omega
      refine ⟨hpt, hpc, hi, hlt, hne, fun hq => absurd rfl hq,
        hok.1 _ h2c.2.2, trivial, ?_⟩
      intro hq
      refine ⟨?_, by simp only [mkMove]; omega, by simp only [mkMove]; omega, rfl, rfl⟩
      have hmid : (i + ((((i : Int) / 8 + 2 * dir) * 8 + (i : Int) % 8).toNat)) / 2 =
          ((((i : Int) / 8 + dir) * 8 + (i : Int) % 8).toNat) := by omega
      show bd.b ((i + ((((i : Int) / 8 + 2 * dir) * 8 + (i : Int) % 8).toNat)) / 2) = ({} : Piece)
      rw [hmid]
      exact hok.1 _ hone

/-- Every move emitted by the sideways pawn block (captures, capture
promotions and en passant) is well-formed. -/
theorem pawnSideGen_wf (bd : Board) (hok : BoardOK bd) (i : Nat) (hi : i < 64)
    (hp : (bd.b i).t = PieceType.pawn) (hpc : (bd.b i).c = bd.stm)
    (dir promoRank : Int) (hdirv : dir = 1 ∨ dir = -1)
    (hdir2 : ∀ t : Nat, epCapSq (bd.b i).c t = ((t : Int) - 8 * dir).toNat)
    (df : Int) (hdf : df = -1 ∨ df = 1) (m : Move)
    (hm : m ∈ pawnSideGen bd i (bd.b i).c ((i : Int) / 8) ((i : Int) % 8) dir promoRank df) :
    MoveWF bd m := by
  have hpt : (bd.b i).t ≠ PieceType.none := by simp [hp]
  simp only [pawnSideGen] at hm
  split at hm
  · simp at hm
  · rename_i hbound
    have hlt : ((((i : Int) / 8 + dir) * 8 + ((i : Int) % 8 + df)).toNat) < 64 := by omega
    have hne : i ≠ ((((i : Int) / 8 + dir) * 8 + ((i : Int) % 8 + df)).toNat) := by omega
    rcases List.mem_append.1 hm with h1 | h1
    · obtain ⟨hcap, h2⟩ := mem_ite_nil h1
      by_cases hpr : ((i : Int) / 8 + dir) = promoRank
      · rw [if_pos hpr] at h2
        simp only [List.mem_cons, List.not_mem_nil, or_false] at h2
        rcases h2 with rfl | rfl | rfl | rfl <;>
          exact ⟨hpt, hpc, hi, hlt, hne, fun _ => hp, ⟨hcap.1, hcap.2, rfl⟩,
            trivial, fun hq => absurd hq.2 (by simp only [mkMove]; omega)⟩
      · rw [if_neg hpr] at h2
        simp only [List.mem_singleton] at h2
        subst h2
        exact ⟨hpt, hpc, hi, hlt, hne, fun hq => absurd rfl hq,
          ⟨hcap.1, hcap.2, rfl⟩, trivial,
          fun hq => absurd hq.2 (by simp only [mkMove]; omega)⟩
    · obtain ⟨heps, h2⟩ := mem_ite_nil h1
      obtain ⟨hadj, h3⟩ := mem_ite_nil h2
      simp only [List.mem_singleton] at h3
      subst h3
      have h5e : bd.epSquare =
          (((((i : Int) / 8 + dir) * 8 + ((i : Int) % 8 + df)).toNat : Nat) : Int) := by
        rw [heps]; omega
      have h6e : bd.b ((((i : Int) / 8 + dir) * 8 + ((i : Int) % 8 + df)).toNat) =
          ({} : Piece) := by
        have h0 := hok.2 (by rw [heps]; omega)
        rw [heps] at h0
        have h1 : (((i : Int) / 8 + dir) * 8 + ((i : Int) % 8 + df)).toNat =
            ((((i : Int) / 8 + dir) * 8 + ((i : Int) % 8 + df) : Int)).toNat := rfl
        exact h0
      have hce : epCapSq (bd.b i).c ((((i : Int) / 8 + dir) * 8 + ((i : Int) % 8 + df)).toNat) =
          (((i : Int) / 8 * 8 + ((i : Int) % 8 + df)).toNat) := by
        rw [hdir2]; omega
      have hc64 : epCapSq (bd.b i).c
          ((((i : Int) / 8 + dir) * 8 + ((i : Int) % 8 + df)).toNat) < 64 := by
        rw [hce]; omega
      have hcni : epCapSq (bd.b i).c
          ((((i : Int) / 8 + dir) * 8 + ((i : Int) % 8 + df)).toNat) ≠ i := by
        rw [hce]; omega
      have hcnt : epCapSq (bd.b i).c
          ((((i : Int) / 8 + dir) * 8 + ((i : Int) % 8 + df)).toNat) ≠
          ((((i : Int) / 8 + dir) * 8 + ((i : Int) % 8 + df)).toNat) := by
        rw [hce]; omega
      have hct : (bd.b (epCapSq (bd.b i).c
          ((((i : Int) / 8 + dir) * 8 + ((i : Int) % 8 + df)).toNat))).t =
          PieceType.pawn := by
        rw [hce]; exact hadj.2.1
      have hcc : (bd.b (epCapSq (bd.b i).c
          ((((i : Int) / 8 + dir) * 8 + ((i : Int) % 8 + df)).toNat))).c ≠
          (bd.b i).c := by
        rw [hce]; exact hadj.2.2
      exact ⟨hpt, hpc, hi, hlt, hne, fun hq => absurd rfl hq,
        ⟨hp, rfl, rfl, rfl, h5e, h6e, hc64, hcni, hcnt, hct, hcc⟩,
        trivial, fun hq => absurd hq.2 (by simp only [mkMove]; omega)⟩

/-- Every move emitted for a pawn is well-formed. -/
theorem pawnGen_wf (bd : Board) (hok : BoardOK bd) (i : Nat) (hi : i < 64)
    (hp : (bd.b i).t = PieceType.pawn) (hpc : (bd.b i).c = bd.stm) (m : Move)
    (hm : m ∈ pawnGen bd i (bd.b i).c ((i : Int) / 8) ((i : Int) % 8)) :
    MoveWF bd m := by
  have hdirv : (if (bd.b i).c = Color.white then (1 : Int) else -1) = 1 ∨
      (if (bd.b i).c = Color.white then (1 : Int) else -1) = -1 := by
    cases (bd.b i).c <;> simp
  have hdir2 : ∀ t : Nat, epCapSq (bd.b i).c t =
      ((t : Int) - 8 * (if (bd.b i).c = Color.white then (1 : Int) else -1)).toNat := by
    intro t
    cases (bd.b i).c <;> simp [epCapSq] <;> omega
  simp only [pawnGen] at hm
  rcases List.mem_append.1 hm with h1 | h1
  · rcases List.mem_append.1 h1 with h2 | h2
    · exact pawnFwdGen_wf bd hok i hi hp hpc _ _ _ hdirv m h2
    · exact pawnSideGen_wf bd hok i hi hp hpc _ _ hdirv hdir2 (-1) (Or.inl rfl) m h2
  · exact pawnSideGen_wf bd hok i hi hp hpc _ _ hdirv hdir2 1 (Or.inr rfl) m h1


/-- Every move emitted for the piece on square `i` is well-formed. -/
theorem squareGen_wf (bd : Board) (hok : BoardOK bd) (i : Nat) (hi : i < 64)
    (m : Move) (hm : m ∈ squareGen bd i) : MoveWF bd m := by
  simp only [squareGen] at hm
  split at hm
  · simp at hm
  · rename_i hcond
    push_neg at hcond
    obtain ⟨hpt, hpc⟩ := hcond
    cases hty : (bd.b i).t
    case none => exact absurd hty hpt
    case pawn =>
      simp only [hty] at hm
      exact pawnGen_wf bd hok i hi hty hpc m hm
    case knight =>
      simp only [hty] at hm
      exact knightGen_wf bd hok i hi hpc hty m hm
    case bishop =>
      simp only [hty] at hm
      exact sliderGen_wf bd hok i hi hpt hpc (by simp [hty]) _ m hm
    case rook =>
      simp only [hty] at hm
      exact sliderGen_wf bd hok i hi hpt hpc (by simp [hty]) _ m hm
    case queen =>
      simp only [hty] at hm
      exact sliderGen_wf bd hok i hi hpt hpc (by simp [hty]) _ m hm
    case king =>
      simp only [hty] at hm
      exact kingGen_wf bd hok i hi hpc hty m hm

/-- Soundness of the pseudo-move generator: on a structurally sound board,
every generated move satisfies all of `MoveWF`. -/
theorem pseudo_WF (bd : Board) (hok : BoardOK bd) (m : Move)
    (hm : m ∈ bd.genPseudoMoves) : MoveWF bd m := by
  simp only [Board.genPseudoMoves, List.mem_flatten, List.mem_map] at hm
  obtain ⟨L, ⟨i, hir, rfl⟩, hmL⟩ := hm
  exact squareGen_wf bd hok i (List.mem_range.1 hir) m hmL


/-! ### Preservation of the board invariants by makeMove -/

theorem CanonB_set {b : Nat → Piece} (hc : CanonB b) {i : Nat} {p : Piece}
    (hp : p.t = PieceType.none → p = ({} : Piece)) : CanonB (setSq b i p) := by
  intro j hj
  by_cases h : j = i
  · subst h
    rw [setSq_same] at hj ⊢
    exact hp hj
  · rw [setSq_other _ _ _ h] at hj ⊢
    exact hc j hj

theorem CanonB_foldPawns (rank : Nat) (c : Color) (L : List Nat)
    (b : Nat → Piece) (hc : CanonB b) :
    CanonB (L.foldl (fun acc f => setFR acc f rank c PieceType.pawn) b) := by
  induction L generalizing b with
  | nil => exact hc
  | cons a as ih => exact ih _ (CanonB_set hc (fun h => nomatch h))

/-- The starting position satisfies the structural board invariants. -/
theorem startBoard_OK (z : Option Zobrist) : BoardOK (startBoard z) := by
  constructor
  · show CanonB (startBoard z).b
    simp only [startBoard, Board.reset, Board.clear, Board.recomputeHash]
    refine CanonB_foldPawns _ _ _ _ ?_
    refine CanonB_set (CanonB_set (CanonB_set (CanonB_set (CanonB_set
      (CanonB_set (CanonB_set (CanonB_set ?_ (fun h => absurd h (by decide)))
      (fun h => absurd h (by decide))) (fun h => absurd h (by decide))) (fun h => absurd h (by decide)))
      (fun h => absurd h (by decide))) (fun h => absurd h (by decide))) (fun h => absurd h (by decide)))
      (fun h => absurd h (by decide))
    refine CanonB_foldPawns _ _ _ _ ?_
    refine CanonB_set (CanonB_set (CanonB_set (CanonB_set (CanonB_set
      (CanonB_set (CanonB_set (CanonB_set ?_ (fun h => absurd h (by decide)))
      (fun h => absurd h (by decide))) (fun h => absurd h (by decide))) (fun h => absurd h (by decide)))
      (fun h => absurd h (by decide))) (fun h => absurd h (by decide))) (fun h => absurd h (by decide)))
      (fun h => absurd h (by decide))
    exact fun _ _ => rfl
  · intro hE
    have h : (startBoard z).epSquare = -1 := rfl
    rw [h] at hE
    exact absurd hE (by decide)

/-- The en-passant field written by applyMove. -/
theorem applyMove_ep (bd : Board) (m : Move) :
    (applyMove bd m).epSquare =
      (if (bd.b m.fromSq).t = PieceType.pawn ∧
          ((m.toSq : Int) / 8 - (m.fromSq : Int) / 8).natAbs = 2 then
        ((m.fromSq : Int) + (m.toSq : Int)) / 2
      else -1) := rfl

/-- A well-formed move applied to a structurally sound board yields a
structurally sound board. -/
theorem applyMove_BoardOK (bd : Board) (m : Move) (hok : BoardOK bd)
    (hwf : MoveWF bd m) : BoardOK (applyMove bd m) := by
  simp only [MoveWF] at hwf
  obtain ⟨hne, hcol, hF64, hT64, hFT, hpp, hkind, hcastle, hdbl⟩ := hwf
  constructor
  · show CanonB (applyMove bd m).b
    by_cases hep : m.isEnPassant = true
    · rw [if_pos hep] at hkind
      obtain ⟨hpt, hcapT, hprn, hcasF, hepsq, hbT, hc64, hcF, hcT, hcp, hcc⟩ := hkind
      rw [applyMove_b_ep bd m hep hcasF hprn hcF]
      exact CanonB_set (CanonB_set (CanonB_set hok.1 (fun _ => rfl))
        (fun h => absurd h hne)) (fun _ => rfl)
    · have hepF : m.isEnPassant = false := by revert hep; cases m.isEnPassant <;> simp
      by_cases hcas : m.isCastle = true
      · rw [if_pos hcas] at hcastle
        obtain ⟨hprn, hcapF, hepF2, hkt, hside⟩ := hcastle
        rcases hside with ⟨hcw, hF4, hsub⟩ | ⟨hcb, hF60, hsub⟩
        · rcases hsub with ⟨hT, hr7, hs5, hs6⟩ | ⟨hT, hr0, hs1, hs2, hs3⟩
          · rw [applyMove_b_castle_wk bd m hepF hcas hprn hcw hF4 hT]
            exact CanonB_set (CanonB_set (CanonB_set (CanonB_set hok.1
              (fun h => absurd h (by rw [← hF4]; simp [hkt])))
              (fun _ => rfl))
              (fun h => absurd h (by rw [hr7]; decide)))
              (fun _ => rfl)
          · rw [applyMove_b_castle_wq bd m hepF hcas hprn hcw hF4 hT]
            exact CanonB_set (CanonB_set (CanonB_set (CanonB_set hok.1
              (fun h => absurd h (by rw [← hF4]; simp [hkt])))
              (fun _ => rfl))
              (fun h => absurd h (by rw [hr0]; decide)))
              (fun _ => rfl)
        · rcases hsub with ⟨hT, hr63, hs61, hs62⟩ | ⟨hT, hr56, hs57, hs58, hs59⟩
          · rw [applyMove_b_castle_bk bd m hepF hcas hprn hcb hF60 hT]
            exact CanonB_set (CanonB_set (CanonB_set (CanonB_set hok.1
              (fun h => absurd h (by rw [← hF60]; simp [hkt])))
              (fun _ => rfl))
              (fun h => absurd h (by rw [hr63]; decide)))
              (fun _ => rfl)
          · rw [applyMove_b_castle_bq bd m hepF hcas hprn hcb hF60 hT]
            exact CanonB_set (CanonB_set (CanonB_set (CanonB_set hok.1
              (fun h => absurd h (by rw [← hF60]; simp [hkt])))
              (fun _ => rfl))
              (fun h => absurd h (by rw [hr56]; decide)))
              (fun _ => rfl)
      · have hcasF : m.isCastle = false := by revert hcas; cases m.isCastle <;> simp
        by_cases hpr : m.promo = PieceType.none
        · rw [applyMove_b_std bd m hepF hcasF hpr]
          exact CanonB_set (CanonB_set hok.1 (fun h => absurd h hne)) (fun _ => rfl)
        · rw [applyMove_b_promo bd m hepF hcasF hpr (Ne.symm hFT)]
          exact CanonB_set (CanonB_set (CanonB_set hok.1 (fun h => absurd h hne))
            (fun _ => rfl)) (fun h => absurd h hpr)
  · intro hE
    by_cases hdp : (bd.b m.fromSq).t = PieceType.pawn ∧
        ((m.toSq : Int) / 8 - (m.fromSq : Int) / 8).natAbs = 2
    · obtain ⟨hmid, hmne, hmnt, hcapF, hepF⟩ := hdbl hdp
      have hcasF : m.isCastle = false := by
        by_cases hc : m.isCastle = true
        · rw [if_pos hc] at hcastle
          have h1 := hcastle.2.2.2.1
          rw [hdp.1] at h1
          exact absurd h1 (by decide)
        · revert hc; cases m.isCastle <;> simp
      have hepv : (applyMove bd m).epSquare =
          ((m.fromSq : Int) + (m.toSq : Int)) / 2 := by
        rw [applyMove_ep, if_pos hdp]
      rw [hepv]
      have htn : ((((m.fromSq : Int) + (m.toSq : Int)) / 2).toNat) =
          (m.fromSq + m.toSq) / 2 := by omega
      rw [htn]
      by_cases hpr : m.promo = PieceType.none
      · rw [applyMove_b_std bd m hepF hcasF hpr]
        rw [setSq_other _ _ _ hmne, setSq_other _ _ _ hmnt]
        exact hmid
      · rw [applyMove_b_promo bd m hepF hcasF hpr (Ne.symm hFT)]
        rw [setSq_other _ _ _ hmnt, setSq_other _ _ _ hmne, setSq_other _ _ _ hmnt]
        exact hmid
    · exfalso
      rw [applyMove_ep, if_neg hdp] at hE
      exact absurd hE (by decide)

/-- A move of genLegalMoves is a pseudo move whose trial makeMove
succeeded. -/
theorem legal_mem (bd : Board) (m : Move) (hm : m ∈ bd.genLegalMoves) :
    m ∈ bd.genPseudoMoves ∧ (bd.makeMove m).1 = true := by
  simpa using List.mem_filter.1 hm

/-- Success/failure of makeMove on a non-empty from-square is decided by
the legality test on the applied position. -/
theorem makeMove_fst_char (bd : Board) (m : Move)
    (h0 : (bd.b m.fromSq).t ≠ PieceType.none) :
    (bd.makeMove m).1 = false ↔ (applyMove bd m).inCheck bd.stm = true := by
  have hcond : other (applyMove bd m).stm = bd.stm := by
    rw [applyMove_stm, other_other]
  simp only [Board.makeMove, hcond]
  rw [if_neg h0]
  by_cases hchk : (applyMove bd m).inCheck bd.stm = true
  · rw [if_pos hchk]; simp [hchk]
  · rw [if_neg hchk]; simp [hchk]

/-- After a successful makeMove of a well-formed move, undoMove of the
returned undo record restores the original board exactly. -/
theorem makeMove_success_undo (bd : Board) (m : Move) (hwf : MoveWF bd m)
    (hs : (bd.makeMove m).1 = true) :
    ((bd.makeMove m).2.1).undoMove (bd.makeMove m).2.2 = bd := by
  have h0 : (bd.b m.fromSq).t ≠ PieceType.none := hwf.1
  simp only [Board.makeMove] at hs ⊢
  rw [if_neg h0] at hs ⊢
  by_cases hchk : (applyMove bd m).inCheck (other (applyMove bd m).stm) = true
  · rw [if_pos hchk] at hs; simp at hs
  · rw [if_neg hchk] at hs ⊢
    exact undo_applyMove bd m hwf _ rfl rfl rfl

/-- A failed makeMove of a well-formed move leaves the board exactly as it
was (the restore path is the same undoMove). -/
theorem makeMove_fail_restore (bd : Board) (m : Move) (hwf : MoveWF bd m)
    (hf : (bd.makeMove m).1 = false) : (bd.makeMove m).2.1 = bd := by
  have h0 : (bd.b m.fromSq).t ≠ PieceType.none := hwf.1
  simp only [Board.makeMove] at hf ⊢
  rw [if_neg h0] at hf ⊢
  by_cases hchk : (applyMove bd m).inCheck (other (applyMove bd m).stm) = true
  · rw [if_pos hchk] at hf ⊢
    exact undo_applyMove bd m hwf _ rfl rfl rfl
  · rw [if_neg hchk] at hf; simp at hf

/-- A successful makeMove of a well-formed move preserves the structural
board invariants. -/
theorem makeMove_success_ok (bd : Board) (m : Move) (hok : BoardOK bd)
    (hwf : MoveWF bd m) (hs : (bd.makeMove m).1 = true) :
    BoardOK (bd.makeMove m).2.1 := by
  have h0 : (bd.b m.fromSq).t ≠ PieceType.none := hwf.1
  simp only [Board.makeMove] at hs ⊢
  rw [if_neg h0] at hs ⊢
  by_cases hchk : (applyMove bd m).inCheck (other (applyMove bd m).stm) = true
  · rw [if_pos hchk] at hs; simp at hs
  · rw [if_neg hchk] at hs ⊢
    have h := applyMove_BoardOK bd m hok hwf
    exact ⟨h.1, h.2⟩

/-- Every reachable position satisfies the structural board invariants. -/
theorem Reachable_OK (z : Option Zobrist) (bd : Board) (h : Reachable z bd) :
    BoardOK bd := by
  induction h with
  | base => exact startBoard_OK z
  | step hr hm ih =>
    have hp := legal_mem _ _ hm
    exact makeMove_success_ok _ _ ih (pseudo_WF _ ih _ hp.1) hp.2


/-! ### C2: make/undo roundtrip for legal moves -/

/-- C2: for every position reachable from the starting position by legal
moves and every move of genLegalMoves, makeMove succeeds and undoMove of
its undo record restores the position exactly (every field of the board,
including the hash). -/
theorem c2_make_undo_roundtrip (z : Option Zobrist) (bd : Board) (m : Move)
    (hreach : Reachable z bd) (hm : m ∈ bd.genLegalMoves) :
    (bd.makeMove m).1 = true ∧
    ((bd.makeMove m).2.1).undoMove (bd.makeMove m).2.2 = bd := by
  have hok : BoardOK bd := Reachable_OK z bd hreach
  have hp := legal_mem bd m hm
  exact ⟨hp.2, makeMove_success_undo bd m (pseudo_WF bd hok m hp.1) hp.2⟩

theorem c2_witness :
    ((startBoard Option.none).makeMove
      (mkMove 8 16 false false false PieceType.none)).1 = true ∧
    (((startBoard Option.none).makeMove
        (mkMove 8 16 false false false PieceType.none)).2.1).undoMove
      ((startBoard Option.none).makeMove
        (mkMove 8 16 false false false PieceType.none)).2.2 =
      startBoard Option.none := by
  have hmem : mkMove 8 16 false false false PieceType.none ∈
      (startBoard Option.none).genLegalMoves := by decide
  exact c2_make_undo_roundtrip Option.none _ _ Reachable.base hmem

/-! ### C4: makeMove failure semantics -/

/-- C4 counterexample: the claim quantifies over every board state and
every move. For the pinned-knight board `c4Board` and the ill-formed quiet
move e2→f3 (`c4Move`, capture flag clear although f3 is occupied),
makeMove returns false but the board is NOT restored: the f3 pawn is
destroyed by the restore path. -/
theorem c4_counterexample :
    (c4Board.makeMove c4Move).1 = false ∧
    (c4Board.makeMove c4Move).2.1.b 21 ≠ c4Board.b 21 := by decide

/-- C4 amended: restricted to moves of the engine's own pseudo-move
generator on reachable positions, makeMove returns false exactly when the
applied move leaves the mover's king attacked, and on failure the board is
restored exactly. -/
theorem c4_make_move_failure (z : Option Zobrist) (bd : Board) (m : Move)
    (hreach : Reachable z bd) (hm : m ∈ bd.genPseudoMoves) :
    ((bd.makeMove m).1 = false ↔ (applyMove bd m).inCheck bd.stm = true) ∧
    ((bd.makeMove m).1 = false → (bd.makeMove m).2.1 = bd) := by
  have hok := Reachable_OK z bd hreach
  have hwf := pseudo_WF bd hok m hm
  exact ⟨makeMove_fst_char bd m hwf.1,
    fun hf => makeMove_fail_restore bd m hwf hf⟩

theorem c4_witness :
    (((startBoard Option.none).makeMove
        (mkMove 8 16 false false false PieceType.none)).1 = false ↔
      (applyMove (startBoard Option.none)
        (mkMove 8 16 false false false PieceType.none)).inCheck
        (startBoard Option.none).stm = true) ∧
    (((startBoard Option.none).makeMove
        (mkMove 8 16 false false false PieceType.none)).1 = false →
      ((startBoard Option.none).makeMove
        (mkMove 8 16 false false false PieceType.none)).2.1 =
        startBoard Option.none) := by
  have hmem : mkMove 8 16 false false false PieceType.none ∈
      (startBoard Option.none).genPseudoMoves := by decide
  exact c4_make_move_failure Option.none _ _ Reachable.base hmem


/-! ### Hash correctness: XOR algebra -/

theorem natXor_left_comm (a b c : Nat) : a ^^^ (b ^^^ c) = b ^^^ (a ^^^ c) := by
  rw [← Nat.xor_assoc, Nat.xor_comm a b, Nat.xor_assoc]

theorem natXor_cancel (a b : Nat) : a ^^^ (a ^^^ b) = b := by
  rw [← Nat.xor_assoc, Nat.xor_self, Nat.zero_xor]

theorem xorPieces_congr (zz : Zobrist) (b b' : Nat → Piece) (n : Nat)
    (h : ∀ k, k < n → b k = b' k) : xorPieces zz b n = xorPieces zz b' n := by
  induction n with
  | zero => rfl
  | succ n ih =>
    simp only [xorPieces]
    rw [ih (fun k hk => h k (by omega)), h n (by omega)]

theorem xorPieces_set (zz : Zobrist) (b : Nat → Piece) (j : Nat) (p : Piece)
    {n : Nat} (hj : j < n) :
    xorPieces zz (setSq b j p) n =
      xorPieces zz b n ^^^ pieceKeyZ zz (b j) j ^^^ pieceKeyZ zz p j := by
  induction n with
  | zero => omega
  | succ n ih =>
    by_cases h : j = n
    · subst h
      have hc : xorPieces zz (setSq b j p) j = xorPieces zz b j :=
        xorPieces_congr _ _ _ _ (fun k hk => setSq_other _ _ _ (by omega))
      simp only [xorPieces, hc, setSq_same]
      rw [Nat.xor_assoc (xorPieces zz b j), Nat.xor_assoc,
        Nat.xor_self, Nat.zero_xor]
    · have hj' : j < n := by omega
      simp only [xorPieces, ih hj']
      rw [setSq_other _ _ _ (Ne.symm h)]
      simp [Nat.xor_assoc, Nat.xor_comm, natXor_left_comm]

/-- recomputeHash as one XOR of the piece fold with the scalar terms. -/
theorem recomputeHashVal_some (bd : Board) (zz : Zobrist) (hz : bd.z = Option.some zz) :
    recomputeHashVal bd =
      xorPieces zz bd.b 64 ^^^
        scalarHashDelta zz bd.epSquare bd.castling bd.stm := by
  by_cases hstm : bd.stm = Color.black <;>
    simp [recomputeHashVal, scalarHashDelta, hz, hstm, Nat.xor_assoc,
      Nat.xor_comm, natXor_left_comm]

theorem recomputeHashVal_none (bd : Board) (hz : bd.z = Option.none) :
    recomputeHashVal bd = 0 := by
  simp [recomputeHashVal, hz]

/-- Without a Zobrist table attached the incremental hash is untouched. -/
theorem applyMove_hash_znone (bd : Board) (m : Move) (hz : bd.z = Option.none) :
    (applyMove bd m).hash = bd.hash := by
  simp only [applyMove, hz]
  split <;> simp


theorem Board.hash_update (bd : Board) (h : Nat) :
    ({ bd with hash := h } : Board).hash = h := rfl

theorem recomputeHashVal_hashIrrel (bd : Board) (h : Nat) :
    recomputeHashVal { bd with hash := h } = recomputeHashVal bd := rfl

/-- The board a successful makeMove returns: the applied position with the
new scalar hash terms XORed back in. -/
theorem makeMove_success_result (bd : Board) (m : Move)
    (h0 : (bd.b m.fromSq).t ≠ PieceType.none)
    (hs : (bd.makeMove m).1 = true) :
    (bd.makeMove m).2.1 =
      { applyMove bd m with hash :=
          match bd.z with
          | Option.none => (applyMove bd m).hash
          | Option.some zz =>
            (applyMove bd m).hash ^^^
              scalarHashDelta zz (applyMove bd m).epSquare
                (applyMove bd m).castling (applyMove bd m).stm } := by
  simp only [Board.makeMove] at hs ⊢
  rw [if_neg h0] at hs ⊢
  by_cases hchk : (applyMove bd m).inCheck (other (applyMove bd m).stm) = true
  · rw [if_pos hchk] at hs; simp at hs
  · rw [if_neg hchk]

/-- Central hash-update correctness: applying a well-formed move to a board
whose hash is correct yields exactly the XOR of the piece keys of the new
piece array (the new scalar terms are added by makeMove afterwards). -/
theorem applyMove_hash_correct (bd : Board) (m : Move) (hwf : MoveWF bd m)
    (zz : Zobrist) (hz : bd.z = Option.some zz)
    (hh : bd.hash = recomputeHashVal bd) :
    (applyMove bd m).hash = xorPieces zz (applyMove bd m).b 64 := by
  simp only [MoveWF] at hwf
  obtain ⟨hne, hcol, hF64, hT64, hFT, hpp, hkind, hcastle, hdbl⟩ := hwf
  rw [recomputeHashVal_some bd zz hz] at hh
  by_cases hep : m.isEnPassant = true
  · rw [if_pos hep] at hkind
    obtain ⟨hpt, hcap, hprn, hcasF, hepsq, hbT, hc64, hcF, hcT, hcp, hcc⟩ := hkind
    have hcpne : ¬((bd.b (epCapSq (bd.b m.fromSq).c m.toSq)).t = PieceType.none) := by
      simp [hcp]
    rw [applyMove_b_ep bd m hep hcasF hprn hcF]
    rw [xorPieces_set _ _ _ _ hF64, xorPieces_set _ _ _ _ hT64,
      xorPieces_set _ _ _ _ hc64]
    simp [applyMove, capturedOf, hz, hep, hcasF, hprn, hh, setSq, pieceKeyZ,
      hFT, Ne.symm hFT, hcF, Ne.symm hcF, hcT, Ne.symm hcT, hbT, hcpne, hne,
      Nat.xor_assoc, Nat.xor_comm, natXor_left_comm, natXor_cancel]
  · have hepF : m.isEnPassant = false := by revert hep; cases m.isEnPassant <;> simp
    by_cases hcas : m.isCastle = true
    · rw [if_pos hcas] at hcastle
      obtain ⟨hprn, hcapF, hepF2, hkt, hside⟩ := hcastle
      rw [if_neg (by simp [hepF]), if_neg (by simp [hcapF])] at hkind
      rcases hside with ⟨hcw, hF4, hsub⟩ | ⟨hcb, hF60, hsub⟩
      · have hc4 : (bd.b 4).c = Color.white := hF4 ▸ hcw
        have hk4 : (bd.b 4).t = PieceType.king := hF4 ▸ hkt
        rcases hsub with ⟨hT, hr7, hs5, hs6⟩ | ⟨hT, hr0, hs1, hs2, hs3⟩
        · rw [applyMove_b_castle_wk bd m hepF hcas hprn hcw hF4 hT]
          rw [xorPieces_set _ _ _ _ (show (7:Nat) < 64 by omega),
            xorPieces_set _ _ _ _ (show (5:Nat) < 64 by omega),
            xorPieces_set _ _ _ _ (show (4:Nat) < 64 by omega),
            xorPieces_set _ _ _ _ (show (6:Nat) < 64 by omega)]
          simp [applyMove, capturedOf, hz, hepF, hcas, hcapF, hprn, hh, setSq,
            pieceKeyZ, hF4, hT, hr7, hs5, hs6, hc4, hk4,
            Nat.xor_assoc, Nat.xor_comm, natXor_left_comm, natXor_cancel]
        · rw [applyMove_b_castle_wq bd m hepF hcas hprn hcw hF4 hT]
          rw [xorPieces_set _ _ _ _ (show (0:Nat) < 64 by omega),
            xorPieces_set _ _ _ _ (show (3:Nat) < 64 by omega),
            xorPieces_set _ _ _ _ (show (4:Nat) < 64 by omega),
            xorPieces_set _ _ _ _ (show (2:Nat) < 64 by omega)]
          simp [applyMove, capturedOf, hz, hepF, hcas, hcapF, hprn, hh, setSq,
            pieceKeyZ, hF4, hT, hr0, hs2, hs3, hc4, hk4,
            Nat.xor_assoc, Nat.xor_comm, natXor_left_comm, natXor_cancel]
      · have hc60 : (bd.b 60).c = Color.black := hF60 ▸ hcb
        have hk60 : (bd.b 60).t = PieceType.king := hF60 ▸ hkt
        rcases hsub with ⟨hT, hr63, hs61, hs62⟩ | ⟨hT, hr56, hs57, hs58, hs59⟩
        · rw [applyMove_b_castle_bk bd m hepF hcas hprn hcb hF60 hT]
          rw [xorPieces_set _ _ _ _ (show (63:Nat) < 64 by omega),
            xorPieces_set _ _ _ _ (show (61:Nat) < 64 by omega),
            xorPieces_set _ _ _ _ (show (60:Nat) < 64 by omega),
            xorPieces_set _ _ _ _ (show (62:Nat) < 64 by omega)]
          simp [applyMove, capturedOf, hz, hepF, hcas, hcapF, hprn, hh, setSq,
            pieceKeyZ, hF60, hT, hr63, hs61, hs62, hc60, hk60,
            Nat.xor_assoc, Nat.xor_comm, natXor_left_comm, natXor_cancel]
        · rw [applyMove_b_castle_bq bd m hepF hcas hprn hcb hF60 hT]
          rw [xorPieces_set _ _ _ _ (show (56:Nat) < 64 by omega),
            xorPieces_set _ _ _ _ (show (59:Nat) < 64 by omega),
            xorPieces_set _ _ _ _ (show (60:Nat) < 64 by omega),
            xorPieces_set _ _ _ _ (show (58:Nat) < 64 by omega)]
          simp [applyMove, capturedOf, hz, hepF, hcas, hcapF, hprn, hh, setSq,
            pieceKeyZ, hF60, hT, hr56, hs58, hs59, hc60, hk60,
            Nat.xor_assoc, Nat.xor_comm, natXor_left_comm, natXor_cancel]
    · have hcasF : m.isCastle = false := by revert hcas; cases m.isCastle <;> simp
      by_cases hcap : m.isCapture = true
      · rw [if_neg (by simp [hepF]), if_pos (by simp [hcap])] at hkind
        obtain ⟨hvt, hvc, -⟩ := hkind
        by_cases hpr : m.promo = PieceType.none
        · rw [applyMove_b_std bd m hepF hcasF hpr]
          rw [xorPieces_set _ _ _ _ hF64, xorPieces_set _ _ _ _ hT64]
          simp [applyMove, capturedOf, hz, hepF, hcasF, hcap, hpr, hh, setSq,
            pieceKeyZ, hFT, Ne.symm hFT, hne, hvt,
            Nat.xor_assoc, Nat.xor_comm, natXor_left_comm, natXor_cancel]
        · have hpawn : (bd.b m.fromSq).t = PieceType.pawn := hpp hpr
          rw [applyMove_b_promo bd m hepF hcasF hpr (Ne.symm hFT)]
          rw [xorPieces_set _ _ _ _ hT64, xorPieces_set _ _ _ _ hF64,
            xorPieces_set _ _ _ _ hT64]
          simp [applyMove, capturedOf, hz, hepF, hcasF, hcap, hpr, hh, setSq,
            pieceKeyZ, hFT, Ne.symm hFT, hne, hvt, hpawn,
            Nat.xor_assoc, Nat.xor_comm, natXor_left_comm, natXor_cancel]
      · have hcapF : m.isCapture = false := by revert hcap; cases m.isCapture <;> simp
        rw [if_neg (by simp [hepF]), if_neg (by simp [hcapF])] at hkind
        by_cases hpr : m.promo = PieceType.none
        · rw [applyMove_b_std bd m hepF hcasF hpr]
          rw [xorPieces_set _ _ _ _ hF64, xorPieces_set _ _ _ _ hT64]
          simp [applyMove, capturedOf, hz, hepF, hcasF, hcapF, hpr, hh, setSq,
            pieceKeyZ, hFT, Ne.symm hFT, hne, hkind,
            Nat.xor_assoc, Nat.xor_comm, natXor_left_comm, natXor_cancel]
        · have hpawn : (bd.b m.fromSq).t = PieceType.pawn := hpp hpr
          rw [applyMove_b_promo bd m hepF hcasF hpr (Ne.symm hFT)]
          rw [xorPieces_set _ _ _ _ hT64, xorPieces_set _ _ _ _ hF64,
            xorPieces_set _ _ _ _ hT64]
          simp [applyMove, capturedOf, hz, hepF, hcasF, hcapF, hpr, hh, setSq,
            pieceKeyZ, hFT, Ne.symm hFT, hne, hkind, hpawn,
            Nat.xor_assoc, Nat.xor_comm, natXor_left_comm, natXor_cancel]

/-- A successful makeMove of a well-formed move keeps the hash equal to the
from-scratch recomputation. -/
theorem makeMove_hash (bd : Board) (m : Move) (hwf : MoveWF bd m)
    (hh : bd.hash = recomputeHashVal bd) (hs : (bd.makeMove m).1 = true) :
    (bd.makeMove m).2.1.hash = recomputeHashVal ((bd.makeMove m).2.1) := by
  have h0 : (bd.b m.fromSq).t ≠ PieceType.none := hwf.1
  rw [makeMove_success_result bd m h0 hs, recomputeHashVal_hashIrrel,
    Board.hash_update]
  cases hz : bd.z with
  | none =>
    simp only [hz]
    rw [applyMove_hash_znone bd m hz, hh, recomputeHashVal_none bd hz,
      recomputeHashVal_none _ (by rw [applyMove_z]; exact hz)]
  | some zz =>
    simp only [hz]
    rw [recomputeHashVal_some _ zz (by rw [applyMove_z]; exact hz)]
    rw [applyMove_hash_correct bd m hwf zz hz hh]


/-! ### C1: hash invariant -/

set_option maxHeartbeats 16000000 in
/-- C1 counterexample: the claim's reachability is "a sequence of
successful makeMove calls", with no restriction to generated moves. From
the starting position (a collision-free Zobrist table attached), the
non-generated
quiet move a1→a2 (`badMove`, capture flag clear although a2 holds a pawn)
is a successful makeMove call, yet afterwards the incremental hash differs
from the from-scratch recomputation: the overwritten pawn's key is never
XORed out. -/
theorem c1_counterexample :
    ((startBoard (Option.some diagZobrist)).makeMove badMove).1 = true ∧
    ((startBoard (Option.some diagZobrist)).makeMove badMove).2.1.hash ≠
      recomputeHashVal
        ((startBoard (Option.some diagZobrist)).makeMove badMove).2.1 := by
  decide

/-- C1 amended: along positions reached by the engine's own legal moves
(each step a move of genLegalMoves played by makeMove), the incrementally
maintained hash always equals the from-scratch recomputation of
`Board::recomputeHash`. -/
theorem c1_hash_invariant (z : Option Zobrist) (bd : Board)
    (hreach : Reachable z bd) : bd.hash = recomputeHashVal bd := by
  induction hreach with
  | base => rfl
  | step hr hm ih =>
    rename_i bd' m'
    have hok := Reachable_OK _ _ hr
    have hp := legal_mem _ _ hm
    exact makeMove_hash _ _ (pseudo_WF _ hok _ hp.1) ih hp.2

theorem c1_witness :
    (startBoard Option.none).hash = recomputeHashVal (startBoard Option.none) :=
  c1_hash_invariant Option.none (startBoard Option.none) Reachable.base


/-! ### C5: statistics plumbing of the search -/

theorem qsLoop_keepP (p : SearchStats → Int)
    (qs : Board → SearchContext → Int → Int → Int × SearchContext)
    (hqs : ∀ b2 c a b, p (qs b2 c a b).2.stats = p c.stats)
    (bd : Board) (beta : Int) (ms : List Move) (alpha : Int)
    (ctx : SearchContext) :
    p (qsLoop qs bd ms alpha beta ctx).2.stats = p ctx.stats := by
  induction ms generalizing alpha ctx with
  | nil => rfl
  | cons m rest ih =>
    simp only [qsLoop]
    rcases hmk : bd.makeMove m with ⟨ok, bd2, u⟩
    by_cases hok2 : ok = false
    · rw [if_pos hok2]
      exact ih _ _
    · rw [if_neg hok2]
      split
      · exact hqs _ _ _ _
      · exact (ih _ _).trans (hqs _ _ _ _)

theorem quiescence_keepP (p : SearchStats → Int)
    (hpn : ∀ st n, p { st with nodes := n } = p st)
    (hpq : ∀ st n, p { st with qnodes := n } = p st)
    (fuel : Nat) (bd : Board) (ctx : SearchContext) (alpha beta : Int) :
    p (quiescence fuel bd ctx alpha beta).2.stats = p ctx.stats := by
  induction fuel generalizing bd ctx alpha beta with
  | zero => rfl
  | succ fuel ih =>
    simp only [quiescence]
    split
    · rfl
    · split
      · exact hpq _ _
      · exact (qsLoop_keepP p _ (fun b2 c a b => ih b2 c a b) bd beta _ _ _).trans
          (hpq _ _)

theorem nmLoop_keepP (p : SearchStats → Int)
    (nm : Board → SearchContext → Int → Int → Int → Int → Int × SearchContext)
    (hnm : ∀ b2 c d a b q, p (nm b2 c d a b q).2.stats = p c.stats)
    (bd : Board) (depth beta ply : Int) (ms : List Move) (i : Nat)
    (best : Int) (bestM : Move) (alpha : Int) (ctx : SearchContext) :
    p (nmLoop nm bd depth beta ply ms i best bestM alpha ctx).2.2.1.stats =
      p ctx.stats := by
  induction ms generalizing i best bestM alpha ctx with
  | nil => rfl
  | cons m rest ih =>
    simp only [nmLoop]
    rcases hmk : bd.makeMove m with ⟨ok, bd2, u⟩
    by_cases hok2 : ok = false
    · rw [if_pos hok2]
      exact ih _ _ _ _ _
    · rw [if_neg hok2]
      repeat' split
      all_goals first
        | rfl
        | exact hnm _ _ _ _ _ _
        | exact (hnm _ _ _ _ _ _).trans (hnm _ _ _ _ _ _)
        | exact (ih _ _ _ _ _).trans (hnm _ _ _ _ _ _)
        | exact (ih _ _ _ _ _).trans
            ((hnm _ _ _ _ _ _).trans (hnm _ _ _ _ _ _))

theorem nmMain_keepP (p : SearchStats → Int)
    (nm : Board → SearchContext → Int → Int → Int → Int → Int × SearchContext)
    (qs : Board → SearchContext → Int → Int → Int × SearchContext)
    (hnm : ∀ b2 c d a b q, p (nm b2 c d a b q).2.stats = p c.stats)
    (hqs : ∀ b2 c a b, p (qs b2 c a b).2.stats = p c.stats)
    (bd : Board) (ctx : SearchContext) (depth alpha1 beta1 ply : Int)
    (ttMove : Move) :
    p (nmMain nm qs bd ctx depth alpha1 beta1 ply ttMove).2.stats =
      p ctx.stats := by
  simp only [nmMain]
  repeat' split
  all_goals first
    | rfl
    | exact hqs _ _ _ _
    | exact nmLoop_keepP p nm hnm bd depth _ _ _ _ _ _ _ _

theorem negamax_keepP (p : SearchStats → Int)
    (hpn : ∀ st n, p { st with nodes := n } = p st)
    (hpq : ∀ st n, p { st with qnodes := n } = p st)
    (fuel : Nat) (bd : Board) (ctx : SearchContext)
    (depth alpha beta ply : Int) :
    p (negamax fuel bd ctx depth alpha beta ply).2.stats = p ctx.stats := by
  induction fuel generalizing bd ctx depth alpha beta ply with
  | zero => rfl
  | succ fuel ih =>
    simp only [negamax]
    repeat' split
    all_goals first
      | rfl
      | exact hpn _ _
      | exact (nmMain_keepP p _ _ (fun b2 c d a b q => ih b2 c d a b q)
          (fun b2 c a b => quiescence_keepP p hpn hpq fuel b2 c a b)
          bd _ depth _ _ _ _).trans (hpn _ _)

theorem rootScan_keepP (p : SearchStats → Int)
    (hpn : ∀ st n, p { st with nodes := n } = p st)
    (hpq : ∀ st n, p { st with qnodes := n } = p st)
    (fuel : Nat) (bd : Board) (d : Int) (ms : List Move)
    (alpha beta localBest : Int) (localMove : Move) (ctx : SearchContext) :
    p (rootScan fuel bd d ms alpha beta localBest localMove ctx).2.2.stats =
      p ctx.stats := by
  induction ms generalizing alpha beta localBest localMove ctx with
  | nil => rfl
  | cons m rest ih =>
    simp only [rootScan]
    split
    · rfl
    · rcases hmk : bd.makeMove m with ⟨ok, bd2, u⟩
      by_cases hok2 : ok = false
      · rw [if_pos hok2]
        exact ih _ _ _ _ _
      · rw [if_neg hok2]
        repeat' split
        all_goals first
          | rfl
          | exact negamax_keepP p hpn hpq fuel _ _ _ _ _ _
          | exact (negamax_keepP p hpn hpq fuel _ _ _ _ _ _).trans
              (negamax_keepP p hpn hpq fuel _ _ _ _ _ _)
          | exact (ih _ _ _ _ _).trans
              (negamax_keepP p hpn hpq fuel _ _ _ _ _ _)
          | exact (ih _ _ _ _ _).trans
              ((negamax_keepP p hpn hpq fuel _ _ _ _ _ _).trans
                (negamax_keepP p hpn hpq fuel _ _ _ _ _ _))


theorem rootScan_keepDR (fuel : Nat) (bd : Board) (d : Int) (ms : List Move)
    (alpha beta lb : Int) (lm : Move) (ctx : SearchContext) :
    (rootScan fuel bd d ms alpha beta lb lm ctx).2.2.stats.depthReached =
      ctx.stats.depthReached :=
  rootScan_keepP (fun st => st.depthReached) (fun _ _ => rfl) (fun _ _ => rfl)
    fuel bd d ms alpha beta lb lm ctx

theorem rootScan_keepBS (fuel : Nat) (bd : Board) (d : Int) (ms : List Move)
    (alpha beta lb : Int) (lm : Move) (ctx : SearchContext) :
    (rootScan fuel bd d ms alpha beta lb lm ctx).2.2.stats.bestScore =
      ctx.stats.bestScore :=
  rootScan_keepP (fun st => st.bestScore) (fun _ _ => rfl) (fun _ _ => rfl)
    fuel bd d ms alpha beta lb lm ctx

/-- Every score/move pair the root scan returns is either the untouched
−INF seed or a value the scan measured for the returned move: minus a
negamax value of the position after the move at depth d−1 and ply 1. -/
theorem rootScan_measured (fuel : Nat) (bd : Board) (d : Int) (ms : List Move)
    (alpha beta localBest : Int) (localMove : Move) (ctx : SearchContext)
    (hloc : localBest = -INF ∨ MeasuredAt bd d localMove localBest) :
    (rootScan fuel bd d ms alpha beta localBest localMove ctx).1 = -INF ∨
    MeasuredAt bd d
      (rootScan fuel bd d ms alpha beta localBest localMove ctx).2.1
      (rootScan fuel bd d ms alpha beta localBest localMove ctx).1 := by
  induction ms generalizing alpha beta localBest localMove ctx with
  | nil => exact hloc
  | cons m rest ih =>
    simp only [rootScan]
    split
    · exact hloc
    · rcases hmk : bd.makeMove m with ⟨ok, bd2, u⟩
      by_cases hok2 : ok = false
      · rw [if_pos hok2]
        exact ih _ _ _ _ _ hloc
      · rw [if_neg hok2]
        have hok3 : ok = true := by revert hok2; cases ok <;> simp
        have hsucc : (bd.makeMove m).1 = true := by rw [hmk]; exact hok3
        have hb2 : bd2 = (bd.makeMove m).2.1 := by rw [hmk]
        have hMm : ∀ (c : SearchContext) (a b : Int),
            MeasuredAt bd d m (-(negamax fuel bd2 c (d - 1) a b 1).1) :=
          fun c a b => ⟨hsucc, fuel, c, a, b, by rw [hb2]⟩
        repeat' split
        all_goals first
          | exact hloc
          | exact Or.inr (hMm _ _ _)
          | exact ih _ _ _ _ _ hloc
          | exact ih _ _ _ _ _ (Or.inr (hMm _ _ _))

/-- Invariant of the iterative-deepening loop: the committed statistics
always describe the best move the loop hands on. -/
theorem idLoop_inv (fuel : Nat) (bd : Board) (k : Nat) (d : Int)
    (rms : List Move) (bm : Move) (bs : Int) (ctx : SearchContext)
    (hinv : StatsConsistent bd bm ctx.stats) :
    StatsConsistent bd (idLoop fuel bd k d rms bm bs ctx).2.1
      (idLoop fuel bd k d rms bm bs ctx).2.2.2.stats := by
  induction k generalizing d rms bm bs ctx with
  | zero => exact hinv
  | succ k ih =>
    have hstop : ∀ (ms : List Move) (alpha beta lb : Int) (lm : Move),
        StatsConsistent bd bm
          ((rootScan fuel bd d ms alpha beta lb lm ctx).2.2).stats := by
      intro ms alpha beta lb lm
      rcases hinv with h | h | h
      · exact Or.inl (by rw [rootScan_keepDR]; exact h)
      · exact Or.inr (Or.inl (by rw [rootScan_keepBS]; exact h))
      · exact Or.inr (Or.inr (by rw [rootScan_keepDR, rootScan_keepBS]; exact h))
    simp only [idLoop]
    repeat' split
    all_goals first
      | exact hinv
      | exact hstop _ _ _ _ _
      | (apply ih
         exact Or.inr (rootScan_measured fuel bd d _ _ _ _ _ ctx (Or.inl rfl)))

/-- C5 amended: after searchBestMove, either no iteration completed
(depthReached 0), or no root move was scored (bestScore is the −INF seed),
or bestScore is minus a negamax value, at depth depthReached − 1 and ply 1,
of the position after the returned best move: a score from the side to
move's perspective, not from White's. -/
theorem c5_stats_side_to_move (fuel : Nat) (bd : Board) (ctx : SearchContext)
    (maxDepth timeLimitMs : Int) :
    StatsConsistent bd (searchBestMove fuel bd ctx maxDepth timeLimitMs).1
      (searchBestMove fuel bd ctx maxDepth timeLimitMs).2.stats := by
  simp only [searchBestMove]
  split
  · exact Or.inl rfl
  · exact idLoop_inv _ _ _ _ _ _ _ _ (Or.inl rfl)


set_option maxHeartbeats 16000000 in
/-- C5 counterexample: in the KRvK position `krkZ` with Black to move, a
depth-1 search returns bestScore 568 — exactly the value the driver
measured as minus the child negamax value, i.e. the score from Black's
(the side to move's) perspective. The White-perspective score of the
returned move is −568, so bestScore is not in centipawns from White's
perspective. -/
theorem c5_counterexample :
    krkZ.stm = Color.black ∧
    c5Search.2.stats.depthReached = 1 ∧
    c5Search.2.stats.bestScore = 568 ∧
    c5MeasuredScore = 568 ∧
    (568 : Int) ≠ -568 := by decide

end Orryx
